import Mathlib

/-!
# CIMDiagramLayoutEditor — verification of the diagram editing core

Shallow embedding of the interactive diagram editing engine of the
CIMDiagramLayoutEditor repository.  The authoritative source for the
interaction state machine and the structural point operations is
`src/services/AppState.ts`; the diagram load service is
`DiagramService.loadDiagramLayout` (unnamed source part).  Coordinates are
embedded as rationals, JavaScript `Set<string>` as duplicate-free lists in
insertion order, JavaScript `Map` as association lists, and the shared
mutable `PointModel` objects (referenced both from their parent object's
ordered list and from the diagram's flattened point collection) as a heap
keyed by the point's stable identifier (iri).
-/

/-- A 2D position, as used for pointer positions and point coordinates
(`Point2D` in `models/types`). -/
structure Point2D where
  x : ℚ
  y : ℚ
deriving DecidableEq, Repr

/-- Modelled from the spec: the data of one `PointModel`
(`src/models/PointModel.ts` is not under `src/`; the spec describes a Point
as identity, coordinates, integer sequence number, a back-reference to its
parent object, and a set of glued-point identifiers).  The identity itself
is the key of the heap; the unused `z` coordinate is omitted. -/
structure PointData where
  x : ℚ
  y : ℚ
  sequenceNumber : ℕ
  parentObject : String
  glued : List String
deriving DecidableEq, Repr

/-- The heap of live `PointModel` objects, keyed by iri.  Mutating a point
through one reference is visible through every other reference, which this
association-list representation captures. -/
abbrev Heap := List (String × PointData)

/-- First-match association lookup (JS `Map.get`, and dereferencing a
point by its iri). -/
def assocLookup {β : Type} : List (String × β) → String → Option β
  | [], _ => none
  | (k, v) :: rest, iri => if k = iri then some v else assocLookup rest iri

/-- Source: `point.x = a; point.y = b` on the point with the given iri. -/
def setXY (h : Heap) (iri : String) (a b : ℚ) : Heap :=
  h.map (fun e => if e.1 = iri then (e.1, { e.2 with x := a, y := b }) else e)

/-- Source: `point.sequenceNumber = v` on the point with the given iri. -/
def setSeq (h : Heap) (iri : String) (v : ℕ) : Heap :=
  h.map (fun e => if e.1 = iri then (e.1, { e.2 with sequenceNumber := v }) else e)

/-- Source: `points.forEach((point, index) => { point.sequenceNumber = index })`,
started at index `i`. -/
def renumberFrom : Heap → List String → ℕ → Heap
  | h, [], _ => h
  | h, p :: rest, i => renumberFrom (setSeq h p i) rest (i + 1)

/-- Renumber the listed points to `0 .. n-1` in list order
(`object.points.forEach((point, index) => { point.sequenceNumber = index })`). -/
def renumber (h : Heap) (ps : List String) : Heap :=
  renumberFrom h ps 0

/-- Check that the `j`-th listed point has sequence number `i + j`. -/
def seqOkFrom : Heap → List String → ℕ → Bool
  | _, [], _ => true
  | h, p :: rest, i =>
    (match assocLookup h p with
     | some pd => pd.sequenceNumber == i
     | none => false) && seqOkFrom h rest (i + 1)

/-- The listed points carry sequence numbers exactly `0 .. n-1` in list
order. -/
def seqOk (h : Heap) (ps : List String) : Bool :=
  seqOkFrom h ps 0

/-- Modelled from the spec: a `DiagramObjectModel`
(`src/models/DiagramModel.ts` is not under `src/`): identity and the ordered
sequence of owned points, kept as iris into the heap.  Display name, offset,
rotation and the polygon flag play no role in the verified operations. -/
structure DiagramObject where
  iri : String
  points : List String
deriving DecidableEq, Repr

/-- Modelled from the spec: the `DiagramModel` aggregate: an ordered
collection of objects, the flattened collection of all points (as iris), and
the heap holding the shared point objects. -/
structure Diagram where
  objects : List DiagramObject
  points : List String
  heap : Heap
deriving DecidableEq, Repr

/-- Assignment `object.points = ps` through a reference to the object with
the given iri. -/
def updObj (objs : List DiagramObject) (objIri : String) (ps : List String) :
    List DiagramObject :=
  objs.map (fun o => if o.iri = objIri then { o with points := ps } else o)

/-- JS `array.splice(i, 0, x)`: insert `x` at index `i` (clamped to the
array length). -/
def splice {α : Type} (l : List α) (i : ℕ) (x : α) : List α :=
  l.take i ++ x :: l.drop i

/-- JS `array.splice(i, 1)`: remove one element at index `i`, with the
JS clamping rules for negative and overlarge indices. -/
def spliceRemove {α : Type} (l : List α) (i : ℤ) : List α :=
  l.eraseIdx (if i < 0 then (max ((l.length : ℤ) + i) 0).toNat else i.toNat)

/-- JS `array.findIndex(p)`: index of the first match, `-1` if none. -/
def jsFindIndex {α : Type} : List α → (α → Bool) → ℤ
  | [], _ => -1
  | a :: rest, p =>
    if p a then 0
    else if jsFindIndex rest p < 0 then -1 else jsFindIndex rest p + 1

/-- Lookup of a diagram object through its iri
(the reference resolution used by the structural operations). -/
def findObj (objs : List DiagramObject) (objIri : String) :
    Option DiagramObject :=
  objs.find? (fun o => o.iri = objIri)

/-- Source: `points.findIndex(p => p.iri === point.iri)` — the index of the
point with the given iri, `-1` if absent. -/
def jsIndexOfIri (l : List String) (x : String) : ℤ :=
  jsFindIndex l (fun q => q == x)

/-- The sublist of `pts` retained by the selected set, in `pts` order. -/
def selectedOf (pts sel : List String) : List String :=
  pts.filter (fun i => sel.contains i)

/-- Result of a structural point operation: the diagram afterwards, whether
the operation committed remotely, the status text it reported (if any), and
whether a remote persistence call was issued. -/
structure OpResult where
  diagram : Diagram
  ok : Bool
  status : Option String
  remoteCalled : Bool
deriving DecidableEq, Repr

/-- Source: `addNewPointToLine` (`AppState.ts`, lines 375–472).  The `object`
argument of the source is a reference to an entry of `diagram.objects`,
modelled here by its iri (the `if (!object) return` guard corresponds to a
failed lookup).  `newPointIri` stands for the freshly generated uuid iri and
`remote` for the outcome of `sparqlService.insertNewPoint`; on failure the
catch-block rollback (filter out the new point from the object's list and
the flattened collection, renumber) is applied. -/
def addNewPointToLine (d : Diagram) (objIri : String) (position : Point2D)
    (insertIndex : ℕ) (newPointIri : String) (remote : Except String Unit) :
    OpResult :=
  match findObj d.objects objIri with
  | none => ⟨d, false, none, false⟩
  | some o =>
    let newPts := splice o.points insertIndex newPointIri
    let h1 : Heap := d.heap ++
      [(newPointIri, ⟨position.x, position.y, insertIndex, objIri, []⟩)]
    let h2 := renumber h1 newPts
    let d1 : Diagram :=
      { objects := updObj d.objects objIri newPts
        points := d.points ++ [newPointIri]
        heap := h2 }
    match remote with
    | .ok _ => ⟨d1, true, some ("New point added"), true⟩
    | .error e =>
      let rbPts := newPts.filter (fun q => q != newPointIri)
      ⟨{ objects := updObj d1.objects objIri rbPts
         points := d1.points.filter (fun q => q != newPointIri)
         heap := renumber h2 rbPts },
       false, some ("Error: " ++ e), true⟩

/-- Source: `deletePointFromLine` (`AppState.ts`, lines 479–567).  The `point`
argument is a reference, modelled by its iri; its `parentObject`
back-reference is the `parentObject` field of its heap data.  `remote` is
the outcome of `sparqlService.deletePoint`; the error branch reloads the
entire layout from the remote store, whose result is the `reloaded`
parameter.  (The selection cleanup on success acts on the interaction
state, not on the diagram, and is outside this definition.) -/
def deletePointFromLine (d : Diagram) (pointIri : String)
    (remote : Except String Unit) (reloaded : Diagram) : OpResult :=
  match assocLookup d.heap pointIri with
  | none => ⟨d, false, some ("Cannot delete point: parent object not found"), false⟩
  | some pd =>
    match findObj d.objects pd.parentObject with
    | none => ⟨d, false, some ("Cannot delete point: parent object not found"), false⟩
    | some o =>
      let pointIndex := jsIndexOfIri o.points pointIri
      if pointIndex = 0 ∨ pointIndex = (o.points.length : ℤ) - 1 then
        ⟨d, false, some ("Cannot delete first or last point of a line or shape"), false⟩
      else
        let newPts := spliceRemove o.points pointIndex
        let h1 := renumber d.heap newPts
        let fi := jsIndexOfIri d.points pointIri
        let newFlat := if 0 ≤ fi then d.points.eraseIdx fi.toNat else d.points
        let d1 : Diagram :=
          { objects := updObj d.objects pd.parentObject newPts
            points := newFlat
            heap := h1 }
        match remote with
        | .ok _ => ⟨d1, true, some ("Point deleted successfully"), true⟩
        | .error e => ⟨reloaded, false, some ("Error: " ++ e), true⟩

/-- Source: `InteractionMode` (`models/types`, per the spec: the four pointer
modes of the interaction state machine). -/
inductive InteractionMode where
  | NONE
  | DRAGGING
  | SELECTING
  | PANNING
deriving DecidableEq, Repr

/-- Source: `CGMESVersion` (`models/types`): the two supported schema versions. -/
inductive CGMESVersion where
  | V2_4_15
  | V3_0
deriving DecidableEq, Repr

/-- Source: `ViewTransform`: scale and offsets mapping diagram coordinates to
viewport coordinates. -/
structure ViewTransform where
  scale : ℚ
  offsetX : ℚ
  offsetY : ℚ
deriving DecidableEq, Repr

/-- Source: `InteractionState` (`models/types`): mode, gesture anchors, the set of
selected point iris (a JS `Set`, kept as a duplicate-free list in insertion
order) and the pre-drag snapshot map (a JS `Map`, kept as an association
list in insertion order). -/
structure InteractionState where
  mode : InteractionMode
  dragStart : Option Point2D
  dragEnd : Option Point2D
  panStart : Option Point2D
  selectedPoints : List String
  originalPositions : List (String × Point2D)
deriving DecidableEq, Repr

/-- Source: `PointUpdateData`: payload of the position-update event committed by a
significant drag. -/
structure PointUpdateData where
  points : List String
  dx : ℚ
  dy : ℚ
deriving DecidableEq, Repr

/-- Modelled from the spec: `AppConfig` (`src/utils/config.ts` is not under
`src/`).  The spec lists the externally supplied configuration consumed by
this core: initial view scale/offset, the drag-commit threshold and the
zoom factor per wheel notch. -/
structure AppConfig where
  dragThreshold : ℚ
  zoomFactor : ℚ
  initialScale : ℚ
  initialOffsetX : ℚ
  initialOffsetY : ℚ
deriving DecidableEq, Repr

/-- The reactive stores of `AppState.ts` gathered into one record: the
CGMES version, the view transform, the loaded diagram, the interaction
state and the position-update event bus. -/
structure AppState where
  cgmesVersion : CGMESVersion
  viewTransform : ViewTransform
  diagramData : Option Diagram
  interactionState : InteractionState
  positionUpdateEvent : Option PointUpdateData
deriving DecidableEq, Repr

/-- Source: `initialInteractionState` (`AppState.ts`, lines 43–50). -/
def initialInteractionState : InteractionState :=
  { mode := InteractionMode.NONE
    dragStart := none
    dragEnd := none
    panStart := none
    selectedPoints := []
    originalPositions := [] }

/-- The initial values of the stores of `AppState.ts` (version `V3_0`,
configured initial view transform, no diagram, no pending event). -/
def initialAppState (cfg : AppConfig) : AppState :=
  { cgmesVersion := CGMESVersion.V3_0
    viewTransform := ⟨cfg.initialScale, cfg.initialOffsetX, cfg.initialOffsetY⟩
    diagramData := none
    interactionState := initialInteractionState
    positionUpdateEvent := none }

/-- Source: `resetViewTransform` (`AppState.ts`, lines 65–71). -/
def resetViewTransform (cfg : AppConfig) (s : AppState) : AppState :=
  { s with viewTransform := ⟨cfg.initialScale, cfg.initialOffsetX, cfg.initialOffsetY⟩ }

/-- Source: `clearSelection` (`AppState.ts`, lines 73–78): empties the selected
set; every other interaction field is kept. -/
def clearSelection (s : AppState) : AppState :=
  { s with interactionState := { s.interactionState with selectedPoints := [] } }

/-- Source: `setCGMESVersion` (`AppState.ts`, lines 95–98). -/
def setCGMESVersion (version : CGMESVersion) (s : AppState) : AppState :=
  clearSelection { s with cgmesVersion := version }

/-- Source: `togglePointSelection` (`AppState.ts`, lines 100–113): flip membership
of one iri in the selected set (`Set.delete` / `Set.add`). -/
def togglePointSelection (pointIri : String) (s : AppState) : AppState :=
  let sel := s.interactionState.selectedPoints
  let newSel :=
    if sel.contains pointIri then sel.filter (fun q => q != pointIri)
    else sel ++ [pointIri]
  { s with interactionState := { s.interactionState with selectedPoints := newSel } }

/-- The snapshot loop of `startDragging` (`AppState.ts`, lines 122–130):
`currentDiagram.points.forEach(point => { if (selected.has(point.iri))
originalPositions.set(point.iri, { x: point.x, y: point.y }) })`. -/
def mkSnapshot (h : Heap) (pts sel : List String) : List (String × Point2D) :=
  pts.filterMap (fun iri =>
    if sel.contains iri then
      match assocLookup h iri with
      | some pd => some (iri, (⟨pd.x, pd.y⟩ : Point2D))
      | none => none
    else none)

/-- Source: `startDragging` (`AppState.ts`, lines 115–139). -/
def startDragging (position : Point2D) (s : AppState) : AppState :=
  match s.diagramData with
  | none => s
  | some d =>
    let originalPositions :=
      mkSnapshot d.heap d.points s.interactionState.selectedPoints
    { s with interactionState :=
        { s.interactionState with
          mode := InteractionMode.DRAGGING
          dragStart := some position
          dragEnd := some position
          originalPositions := originalPositions } }

/-- The shared preview loop of `updateDragging` (lines 156–166) and
`revertDraggedPositions` (lines 226–236): iterate the flattened points and
set the coordinates of every selected point that has a snapshot entry to
`target snapshot`, where `target` is `o ↦ o + delta` for a drag update and
the identity for a revert. -/
def moveSelected (sel : List String) (orig : List (String × Point2D))
    (target : Point2D → Point2D) : Heap → List String → Heap
  | h, [] => h
  | h, iri :: rest =>
    moveSelected sel orig target
      (if sel.contains iri then
        match assocLookup orig iri with
        | some o => setXY h iri (target o).x (target o).y
        | none => h
       else h) rest

/-- Source: `updateDragging` (`AppState.ts`, lines 141–175): guard on a loaded
diagram, `DRAGGING` mode and a drag anchor; move every selected point with
a snapshot to `snapshot + delta`; update `dragEnd`. -/
def updateDragging (position : Point2D) (s : AppState) : AppState :=
  match s.diagramData with
  | none => s
  | some d =>
    if s.interactionState.mode = InteractionMode.DRAGGING then
      match s.interactionState.dragStart with
      | none => s
      | some st =>
        let dx := position.x - st.x
        let dy := position.y - st.y
        let h' := moveSelected s.interactionState.selectedPoints
          s.interactionState.originalPositions (fun o => ⟨o.x + dx, o.y + dy⟩)
          d.heap d.points
        { s with
          diagramData := some { d with heap := h' }
          interactionState := { s.interactionState with dragEnd := some position } }
    else s

/-- Source: `revertDraggedPositions` (`AppState.ts`, lines 217–240): restore every
selected point with a snapshot entry to its snapshot coordinates. -/
def revertDraggedPositions (s : AppState) : AppState :=
  match s.diagramData with
  | none => s
  | some d =>
    let h' := moveSelected s.interactionState.selectedPoints
      s.interactionState.originalPositions (fun o => o) d.heap d.points
    { s with diagramData := some { d with heap := h' } }

/-- Source: `endDragging` (`AppState.ts`, lines 177–215): guard on `DRAGGING` mode
and a drag anchor; compute the final delta from the passed position; reset
mode and anchors; if the delta stays within the configured threshold on
both axes, revert and return `null`, otherwise publish the position-update
event and return its payload. -/
def endDragging (cfg : AppConfig) (position : Point2D) (s : AppState) :
    AppState × Option PointUpdateData :=
  if s.interactionState.mode = InteractionMode.DRAGGING then
    match s.interactionState.dragStart with
    | none => (s, none)
    | some st =>
      let dx := position.x - st.x
      let dy := position.y - st.y
      let s1 := { s with interactionState :=
        { s.interactionState with
          mode := InteractionMode.NONE
          dragStart := none
          dragEnd := none } }
      if |dx| > cfg.dragThreshold ∨ |dy| > cfg.dragThreshold then
        let result : PointUpdateData :=
          ⟨s.interactionState.selectedPoints, dx, dy⟩
        ({ s1 with positionUpdateEvent := some result }, some result)
      else
        (revertDraggedPositions s1, none)
  else (s, none)

/-- Source: `startSelecting` (`AppState.ts`, lines 242–249). -/
def startSelecting (position : Point2D) (s : AppState) : AppState :=
  { s with interactionState :=
      { s.interactionState with
        mode := InteractionMode.SELECTING
        dragStart := some position
        dragEnd := some position } }

/-- Source: `updateSelecting` (`AppState.ts`, lines 251–256). -/
def updateSelecting (position : Point2D) (s : AppState) : AppState :=
  { s with interactionState := { s.interactionState with dragEnd := some position } }

/-- JS `Set.add`: append the element unless already present. -/
def selAdd (sel : List String) (x : String) : List String :=
  if sel.contains x then sel else sel ++ [x]

/-- The collection loop of `completeSelecting` (`AppState.ts`, lines
288–294): walk the flattened points and add every point inside the
inclusive rectangle bounds to the accumulated selection. -/
def addPointsInRect (h : Heap) (startX startY endX endY : ℚ) :
    List String → List String → List String
  | acc, [] => acc
  | acc, iri :: rest =>
    addPointsInRect h startX startY endX endY
      (match assocLookup h iri with
       | some pd =>
         if startX ≤ pd.x ∧ pd.x ≤ endX ∧ startY ≤ pd.y ∧ pd.y ≤ endY then
           selAdd acc iri
         else acc
       | none => acc) rest

/-- Source: `completeSelecting` (`AppState.ts`, lines 258–304): derive the
axis-aligned rectangle from the gesture anchors; cancel if its width or
height is at most 3 units; otherwise add every point inside the inclusive
bounds to a copy of the current selection. -/
def completeSelecting (s : AppState) : AppState :=
  match s.diagramData with
  | none => s
  | some d =>
    if s.interactionState.mode = InteractionMode.SELECTING then
      match s.interactionState.dragStart, s.interactionState.dragEnd with
      | some ds, some de =>
        let startX := min ds.x de.x
        let startY := min ds.y de.y
        let endX := max ds.x de.x
        let endY := max ds.y de.y
        if |endX - startX| ≤ 3 ∨ |endY - startY| ≤ 3 then
          { s with interactionState :=
              { s.interactionState with
                mode := InteractionMode.NONE
                dragStart := none
                dragEnd := none } }
        else
          let newSelectedPoints := addPointsInRect d.heap startX startY endX endY
            s.interactionState.selectedPoints d.points
          { s with interactionState :=
              { s.interactionState with
                mode := InteractionMode.NONE
                dragStart := none
                dragEnd := none
                selectedPoints := newSelectedPoints } }
      | _, _ => s
    else s

/-- Source: `zoom` (`AppState.ts`, lines 349–366): zoom-in factor on a negative
wheel delta, its reciprocal otherwise; rescale and recompute the offsets
around the cursor. -/
def zoom (cfg : AppConfig) (center : Point2D) (delta : ℚ)
    (t : ViewTransform) : ViewTransform :=
  let zoomFactor := if delta < 0 then cfg.zoomFactor else 1 / cfg.zoomFactor
  { scale := t.scale * zoomFactor
    offsetX := center.x - (center.x - t.offsetX) * zoomFactor
    offsetY := center.y - (center.y - t.offsetY) * zoomFactor }

/-- Modelled from the spec: the view mapping `viewport = diagram * scale +
offset` (§3, ViewTransform); the canvas renderer applying it is not under
`src/`. -/
def viewportOf (t : ViewTransform) (p : Point2D) : Point2D :=
  ⟨p.x * t.scale + t.offsetX, p.y * t.scale + t.offsetY⟩

/-- Source: `DiagramService.loadDiagramLayout` (unnamed source part, lines 79–115):
reject an empty diagram iri; reset the view transform and clear the
selection; then either install the fetched layout or leave the diagram
unchanged when the remote query fails.  The Boolean reports success
(in the source, failure re-throws after the status update). -/
def loadDiagramLayout (cfg : AppConfig) (diagramIri : String)
    (fetch : Except String Diagram) (s : AppState) : AppState × Bool :=
  if diagramIri = "" then (s, false)
  else
    let s1 := clearSelection (resetViewTransform cfg s)
    match fetch with
    | .ok diagram => ({ s1 with diagramData := some diagram }, true)
    | .error _ => (s1, false)

/-- The full point data visible for an iri in the loaded diagram. -/
def pointAt (s : AppState) (iri : String) : Option PointData :=
  match s.diagramData with
  | none => none
  | some d => assocLookup d.heap iri

/-- The live coordinates visible for an iri in the loaded diagram. -/
def coordsAt (s : AppState) (iri : String) : Option Point2D :=
  (pointAt s iri).map (fun pd => ⟨pd.x, pd.y⟩)

/-- A predicate used to describe the drag preview loop: a point is touched
by the loop exactly when it is in the flattened collection, selected, and
has a snapshot entry. -/
def DragCond (pts sel : List String) (orig : List (String × Point2D))
    (x : String) : Prop :=
  x ∈ pts ∧ sel.contains x = true ∧ (assocLookup orig x).isSome = true

/-- A heap `h'` differs from `h0` at most on the coordinates of points
touched by the drag preview loop. -/
def MovedFrom (h0 h' : Heap) (pts sel : List String)
    (orig : List (String × Point2D)) : Prop :=
  ∀ x, (¬ DragCond pts sel orig x → assocLookup h' x = assocLookup h0 x) ∧
    (DragCond pts sel orig x → ∃ a b,
      assocLookup h' x = (assocLookup h0 x).map (fun pd => { pd with x := a, y := b }))

/-- The shape of the application state during a drag gesture that started
at `p0` from state `s0` over diagram `d`: only the live heap and the
`dragEnd` anchor evolve while the gesture is in progress. -/
def dragState (s0 : AppState) (d : Diagram) (p0 : Point2D)
    (de : Option Point2D) (h' : Heap) : AppState :=
  { s0 with
    diagramData := some { d with heap := h' }
    interactionState :=
      { s0.interactionState with
        mode := InteractionMode.DRAGGING
        dragStart := some p0
        dragEnd := de
        originalPositions :=
          mkSnapshot d.heap d.points s0.interactionState.selectedPoints } }

/-- The points of the object with the given iri, if one exists. -/
def objPointsOf (d : Diagram) (objIri : String) : Option (List String) :=
  (findObj d.objects objIri).map (fun o => o.points)

/-- Observational equality of diagrams: same object lists, same flattened
collection, and the same point data behind every reachable iri (a point
object only unlinked from both collections is garbage and not compared). -/
def DiagramEquiv (d1 d2 : Diagram) : Prop :=
  d1.objects = d2.objects ∧ d1.points = d2.points ∧
  (∀ iri ∈ d1.points, assocLookup d1.heap iri = assocLookup d2.heap iri) ∧
  (∀ ob ∈ d1.objects, ∀ iri ∈ ob.points,
    assocLookup d1.heap iri = assocLookup d2.heap iri)

/-- One full drag gesture: begin at `p0`, preview through the pointer
positions `ups`, commit at `p`. -/
def dragGestureRun (cfg : AppConfig) (p0 : Point2D) (ups : List Point2D)
    (p : Point2D) (s : AppState) : AppState × Option PointUpdateData :=
  endDragging cfg p (ups.foldl (fun s u => updateDragging u s) (startDragging p0 s))

/-- Decidable form of "every listed point has data in the heap". -/
def allInHeap (h : Heap) (ps : List String) : Bool :=
  ps.all (fun q => (assocLookup h q).isSome)

/-- Decidable form of "`o` is the only object carrying the iri `objIri`". -/
def uniqueOwner (objs : List DiagramObject) (objIri : String)
    (o : DiagramObject) : Bool :=
  objs.all (fun ob => decide (ob.iri = objIri → ob = o))

/-- Decidable form of "no object's point list mentions `x`". -/
def allFresh (objs : List DiagramObject) (x : String) : Bool :=
  objs.all (fun ob => !ob.points.contains x)

/-! ## Concrete example data used by the witnesses -/

/-- A configuration with drag threshold 5 and zoom factor 1.1. -/
def exCfg : AppConfig := ⟨5, 11 / 10, 1, 0, 0⟩

/-- Two one-point objects whose points are glued to each other. -/
def exD1 : Diagram :=
  ⟨[⟨("O"), [("A")]⟩, ⟨("P"), [("B")]⟩], [("A"), ("B")],
   [(("A"), ⟨0, 0, 0, ("O"), [("B")]⟩), (("B"), ⟨10, 0, 0, ("P"), [("A")]⟩)]⟩

/-- A reachable state: load `exD1`, then Ctrl-click point `A`. -/
def exS1 : AppState :=
  togglePointSelection ("A")
    (loadDiagramLayout exCfg ("http://example.org/diagram1") (.ok exD1)
      (initialAppState exCfg)).1

/-- A three-point line `O = [P0(0,0), P1(10,0), P2(10,10)]` as in the spec
example. -/
def exD3 : Diagram :=
  ⟨[⟨("O"), [("P0"), ("P1"), ("P2")]⟩], [("P0"), ("P1"), ("P2")],
   [(("P0"), ⟨0, 0, 0, ("O"), []⟩), (("P1"), ⟨10, 0, 1, ("O"), []⟩),
    (("P2"), ⟨10, 10, 2, ("O"), []⟩)]⟩

/-- A reachable rectangle-selection gesture over `exD1` that is too small. -/
def exSelSmall : AppState := updateSelecting ⟨2, 2⟩ (startSelecting ⟨0, 0⟩ exS1)

/-- A reachable rectangle-selection gesture over `exD1` spanning 20 by 20. -/
def exSelBig : AppState := updateSelecting ⟨20, 20⟩ (startSelecting ⟨0, 0⟩ exS1)

/-! ## Basic lemmas about the heap embedding -/

theorem assocLookup_append {β : Type} (h t : List (String × β)) (k : String) :
    assocLookup (h ++ t) k =
      match assocLookup h k with
      | some v => some v
      | none => assocLookup t k := by
  induction h with
  | nil => simp [assocLookup]
  | cons e rest ih =>
    obtain ⟨a, b⟩ := e
    by_cases hk : a = k
    · simp [assocLookup, hk]
    · simpa [assocLookup, hk] using ih

theorem assocLookup_mapEntry {β : Type} (f : β → β) (l : List (String × β))
    (k x : String) :
    assocLookup (l.map (fun e => if e.1 = k then (e.1, f e.2) else e)) x =
      if x = k then (assocLookup l x).map f else assocLookup l x := by
  induction l with
  | nil => simp [assocLookup]
  | cons e rest ih =>
    obtain ⟨ek, ev⟩ := e
    rw [List.map_cons]
    by_cases h1 : ek = k
    · rw [show (if (ek, ev).1 = k then ((ek, ev).1, f (ek, ev).2) else (ek, ev)) =
          (ek, f ev) from by simp [h1]]
      by_cases h2 : ek = x
      · subst h2
        subst h1
        rw [assocLookup, if_pos rfl, if_pos rfl, assocLookup, if_pos rfl]
        rfl
      · have h2' : ¬ x = k := fun hh => h2 (h1.trans hh.symm)
        rw [assocLookup, if_neg h2, ih, if_neg h2', assocLookup, if_neg h2,
          if_neg h2']
    · rw [show (if (ek, ev).1 = k then ((ek, ev).1, f (ek, ev).2) else (ek, ev)) =
          (ek, ev) from by simp [h1]]
      by_cases h2 : ek = x
      · subst h2
        by_cases h3 : ek = k
        · exact absurd h3 h1
        · rw [assocLookup, if_pos rfl, if_neg h3, assocLookup, if_pos rfl]
      · rw [assocLookup, if_neg h2, ih, assocLookup, if_neg h2]

theorem assocLookup_setXY (h : Heap) (k : String) (a b : ℚ) (x : String) :
    assocLookup (setXY h k a b) x =
      if x = k then (assocLookup h x).map (fun pd => { pd with x := a, y := b })
      else assocLookup h x :=
  @assocLookup_mapEntry PointData (fun pd => { pd with x := a, y := b }) h k x

theorem assocLookup_setSeq (h : Heap) (k : String) (v : ℕ) (x : String) :
    assocLookup (setSeq h k v) x =
      if x = k then (assocLookup h x).map (fun pd => { pd with sequenceNumber := v })
      else assocLookup h x :=
  @assocLookup_mapEntry PointData (fun pd => { pd with sequenceNumber := v }) h k x

theorem assocLookup_renumberFrom_notmem (ps : List String) :
    ∀ (h : Heap) (i : ℕ) (x : String), x ∉ ps →
      assocLookup (renumberFrom h ps i) x = assocLookup h x := by
  induction ps with
  | nil => intro h i x _; rfl
  | cons p rest ih =>
    intro h i x hx
    rw [List.mem_cons, not_or] at hx
    have hxp : ¬ x = p := fun hh => hx.1 hh
    rw [renumberFrom, ih _ _ _ hx.2, assocLookup_setSeq, if_neg hxp]

theorem assocLookup_renumberFrom_mem (ps : List String) :
    ∀ (h : Heap) (i : ℕ) (x : String) (k : ℕ) (hk : k < ps.length),
      ps.Nodup → ps.get ⟨k, hk⟩ = x →
      assocLookup (renumberFrom h ps i) x =
        (assocLookup h x).map (fun pd => { pd with sequenceNumber := i + k }) := by
  induction ps with
  | nil => intro h i x k hk; simp at hk
  | cons p rest ih =>
    intro h i x k hk hnd hget
    rw [List.nodup_cons] at hnd
    match k with
    | 0 =>
      have hp : p = x := hget
      subst hp
      rw [renumberFrom, assocLookup_renumberFrom_notmem _ _ _ _ hnd.1,
        assocLookup_setSeq, if_pos rfl, Nat.add_zero]
    | Nat.succ k' =>
      have hk' : k' < rest.length := Nat.lt_of_succ_lt_succ hk
      have hxr : rest.get ⟨k', hk'⟩ = x := hget
      have hmem : x ∈ rest := hxr ▸ rest.get_mem k' hk'
      have hxp : ¬ x = p := fun hpc => hnd.1 (hpc ▸ hmem)
      rw [renumberFrom, ih _ _ _ _ hk' hnd.2 hxr, assocLookup_setSeq, if_neg hxp]
      have harith : i + 1 + k' = i + (k' + 1) := by omega
      rw [harith]

theorem seqOkFrom_renumberFrom (ps : List String) :
    ∀ (h : Heap) (i : ℕ), ps.Nodup →
      (∀ p ∈ ps, (assocLookup h p).isSome = true) →
      seqOkFrom (renumberFrom h ps i) ps i = true := by
  induction ps with
  | nil => intro h i _ _; rfl
  | cons p rest ih =>
    intro h i hnd hsome
    rw [List.nodup_cons] at hnd
    rw [renumberFrom, seqOkFrom, Bool.and_eq_true]
    constructor
    · rw [assocLookup_renumberFrom_notmem _ _ _ _ hnd.1, assocLookup_setSeq,
        if_pos rfl]
      have hs := hsome p (List.mem_cons_self _ _)
      cases hl : assocLookup h p with
      | none => rw [hl] at hs; simp at hs
      | some pd => simp
    · refine ih _ _ hnd.2 (fun q hq => ?_)
      rw [assocLookup_setSeq]
      by_cases hqp : q = p
      · rw [if_pos hqp, hqp]
        have hs := hsome p (List.mem_cons_self _ _)
        cases hl : assocLookup h p <;> simp_all
      · rw [if_neg hqp]
        exact hsome q (List.mem_cons_of_mem _ hq)

theorem seqOk_renumber (h : Heap) (ps : List String) (hnd : ps.Nodup)
    (hsome : ∀ p ∈ ps, (assocLookup h p).isSome = true) :
    seqOk (renumber h ps) ps = true :=
  seqOkFrom_renumberFrom ps h 0 hnd hsome

theorem seqOkFrom_spec (ps : List String) :
    ∀ (h : Heap) (i : ℕ), seqOkFrom h ps i = true →
      ∀ (k : ℕ) (hk : k < ps.length), ∃ pd,
        assocLookup h (ps.get ⟨k, hk⟩) = some pd ∧ pd.sequenceNumber = i + k := by
  induction ps with
  | nil => intro h i _ k hk; simp at hk
  | cons p rest ih =>
    intro h i hok k hk
    rw [seqOkFrom, Bool.and_eq_true] at hok
    match k with
    | 0 =>
      cases hl : assocLookup h p with
      | none => rw [hl] at hok; simp at hok
      | some pd =>
        refine ⟨pd, hl, ?_⟩
        have hb := hok.1
        rw [hl] at hb
        simpa using hb
    | Nat.succ k' =>
      have hk' : k' < rest.length := Nat.lt_of_succ_lt_succ hk
      obtain ⟨pd, hpd, hseq⟩ := ih _ _ hok.2 k' hk'
      exact ⟨pd, hpd, by omega⟩

/-! ## Lemmas about splice, filter and object updates -/

theorem splice_perm {α : Type} (l : List α) (i : ℕ) (x : α) :
    (splice l i x).Perm (x :: l) := by
  have h1 : (l.take i ++ x :: l.drop i).Perm (x :: (l.take i ++ l.drop i)) :=
    List.perm_middle
  rw [splice]
  simpa [List.take_append_drop] using h1

theorem mem_splice_iff {α : Type} (l : List α) (i : ℕ) (x y : α) :
    y ∈ splice l i x ↔ y = x ∨ y ∈ l := by
  rw [(splice_perm l i x).mem_iff, List.mem_cons]

theorem nodup_splice {α : Type} (l : List α) (i : ℕ) (x : α)
    (hnd : l.Nodup) (hx : x ∉ l) : (splice l i x).Nodup := by
  rw [(splice_perm l i x).nodup_iff, List.nodup_cons]
  exact ⟨hx, hnd⟩

theorem filter_splice_eq_self {α : Type} [DecidableEq α] [BEq α] [LawfulBEq α]
    (l : List α) (i : ℕ) (x : α) (hx : x ∉ l) :
    (splice l i x).filter (fun q => q != x) = l := by
  rw [splice, List.filter_append, List.filter_cons]
  have hxx : (x != x) = false := by simp
  rw [hxx]
  simp only [Bool.false_eq_true, if_neg (by simp : ¬False)]
  have htake : (l.take i).filter (fun q => q != x) = l.take i := by
    rw [List.filter_eq_self]
    intro a ha
    have : a ∈ l := List.take_subset _ _ ha
    simp only [bne_iff_ne, ne_eq]
    exact fun hc => hx (hc ▸ this)
  have hdrop : (l.drop i).filter (fun q => q != x) = l.drop i := by
    rw [List.filter_eq_self]
    intro a ha
    have : a ∈ l := List.drop_subset _ _ ha
    simp only [bne_iff_ne, ne_eq]
    exact fun hc => hx (hc ▸ this)
  rw [htake, hdrop, List.take_append_drop]

theorem findObj_updObj (objs : List DiagramObject) (objIri : String)
    (ps : List String) :
    findObj (updObj objs objIri ps) objIri =
      (findObj objs objIri).map (fun o => { o with points := ps }) := by
  rw [findObj, findObj]
  induction objs with
  | nil => rfl
  | cons a rest ih =>
    by_cases ha : a.iri = objIri
    · rw [updObj, List.map_cons, if_pos ha]
      rw [List.find?_cons_of_pos _ (by simpa using ha),
        List.find?_cons_of_pos _ (by simpa using ha)]
      rfl
    · rw [updObj, List.map_cons, if_neg ha]
      rw [List.find?_cons_of_neg _ (by simpa using ha),
        List.find?_cons_of_neg _ (by simpa using ha)]
      exact ih

theorem updObj_updObj (objs : List DiagramObject) (objIri : String)
    (ps1 ps2 : List String) :
    updObj (updObj objs objIri ps1) objIri ps2 = updObj objs objIri ps2 := by
  rw [updObj, updObj, updObj, List.map_map]
  refine List.map_congr_left ?_
  intro ob _
  by_cases hob : ob.iri = objIri
  · simp [Function.comp, hob]
  · simp [Function.comp, hob]

theorem updObj_eq_self (objs : List DiagramObject) (objIri : String)
    (o : DiagramObject)
    (huniq : ∀ ob ∈ objs, ob.iri = objIri → ob = o) :
    updObj objs objIri o.points = objs := by
  induction objs with
  | nil => rfl
  | cons a rest ih =>
    rw [updObj, List.map_cons]
    have hrest : updObj rest objIri o.points = rest :=
      ih (fun ob hob => huniq ob (List.mem_cons_of_mem _ hob))
    rw [show List.map (fun ob => if ob.iri = objIri then { ob with points := o.points }
        else ob) rest = updObj rest objIri o.points from rfl, hrest]
    by_cases ha : a.iri = objIri
    · have : a = o := huniq a (List.mem_cons_self _ _) ha
      subst this
      rw [if_pos ha]
    · rw [if_neg ha]

/-! ## Lemmas about the drag preview loop -/
theorem moveSelected_notsel (sel : List String) (orig : List (String × Point2D))
    (f : Point2D → Point2D) (pts : List String) :
    ∀ (h : Heap) (x : String), sel.contains x = false →
      assocLookup (moveSelected sel orig f h pts) x = assocLookup h x := by
  induction pts with
  | nil => intro h x _; rfl
  | cons q rest ih =>
    intro h x hx
    rw [moveSelected]
    by_cases hq : sel.contains q = true
    · rw [if_pos hq]
      cases ho : assocLookup orig q with
      | none => simp only [ho]; exact ih _ _ hx
      | some o =>
        simp only [ho]
        rw [ih _ _ hx, assocLookup_setXY]
        have hxq : ¬ x = q := fun hc => by rw [hc] at hx; rw [hx] at hq; exact Bool.false_ne_true hq
        rw [if_neg hxq]
    · rw [if_neg hq]
      exact ih _ _ hx

theorem moveSelected_noorig (sel : List String) (orig : List (String × Point2D))
    (f : Point2D → Point2D) (pts : List String) :
    ∀ (h : Heap) (x : String), assocLookup orig x = none →
      assocLookup (moveSelected sel orig f h pts) x = assocLookup h x := by
  induction pts with
  | nil => intro h x _; rfl
  | cons q rest ih =>
    intro h x hx
    rw [moveSelected]
    by_cases hq : sel.contains q = true
    · rw [if_pos hq]
      cases ho : assocLookup orig q with
      | none => simp only [ho]; exact ih _ _ hx
      | some o =>
        simp only [ho]
        rw [ih _ _ hx, assocLookup_setXY]
        have hxq : ¬ x = q := fun hc => by rw [hc, ho] at hx; exact Option.noConfusion hx
        rw [if_neg hxq]
    · rw [if_neg hq]
      exact ih _ _ hx

theorem moveSelected_notmem (sel : List String) (orig : List (String × Point2D))
    (f : Point2D → Point2D) (pts : List String) :
    ∀ (h : Heap) (x : String), x ∉ pts →
      assocLookup (moveSelected sel orig f h pts) x = assocLookup h x := by
  induction pts with
  | nil => intro h x _; rfl
  | cons q rest ih =>
    intro h x hx
    rw [List.mem_cons, not_or] at hx
    rw [moveSelected]
    by_cases hq : sel.contains q = true
    · rw [if_pos hq]
      cases ho : assocLookup orig q with
      | none => simp only [ho]; exact ih _ _ hx.2
      | some o =>
        simp only [ho]
        rw [ih _ _ hx.2, assocLookup_setXY, if_neg hx.1]
    · rw [if_neg hq]
      exact ih _ _ hx.2

theorem moveSelected_mem (sel : List String) (orig : List (String × Point2D))
    (f : Point2D → Point2D) (pts : List String) :
    ∀ (h : Heap) (x : String) (o : Point2D), x ∈ pts →
      sel.contains x = true → assocLookup orig x = some o →
      assocLookup (moveSelected sel orig f h pts) x =
        (assocLookup h x).map (fun pd => { pd with x := (f o).x, y := (f o).y }) := by
  induction pts with
  | nil => intro h x o hx; simp at hx
  | cons q rest ih =>
    intro h x o hx hsel horig
    rw [moveSelected]
    by_cases hxr : x ∈ rest
    · have hstep : ∀ (h' : Heap),
        assocLookup (moveSelected sel orig f h' rest) x =
          (assocLookup h' x).map (fun pd => { pd with x := (f o).x, y := (f o).y }) :=
        fun h' => ih h' x o hxr hsel horig
      by_cases hq : sel.contains q = true
      · rw [if_pos hq]
        cases ho : assocLookup orig q with
        | none => simp only [ho]; exact hstep h
        | some o' =>
          simp only [ho]
          rw [hstep _, assocLookup_setXY]
          by_cases hxq : x = q
          · subst hxq
            rw [horig] at ho
            obtain rfl : o = o' := by injection ho
            rw [if_pos rfl]
            cases assocLookup h x <;> rfl
          · rw [if_neg hxq]
      · rw [if_neg hq]
        exact hstep h
    · have hxq : x = q := by
        rcases List.mem_cons.mp hx with h1 | h1
        · exact h1
        · exact absurd h1 hxr
      subst hxq
      rw [if_pos hsel]
      simp only [horig]
      rw [moveSelected_notmem _ _ _ _ _ _ hxr, assocLookup_setXY, if_pos rfl]

theorem assocLookup_mkSnapshot (h : Heap) (sel : List String) (pts : List String) :
    ∀ (x : String),
      assocLookup (mkSnapshot h pts sel) x =
        if x ∈ pts ∧ sel.contains x = true then
          (assocLookup h x).map (fun pd => (⟨pd.x, pd.y⟩ : Point2D))
        else none := by
  induction pts with
  | nil => intro x; simp [mkSnapshot, assocLookup]
  | cons q rest ih =>
    intro x
    rw [mkSnapshot, List.filterMap_cons]
    by_cases hq : sel.contains q = true
    · rw [if_pos hq]
      cases ho : assocLookup h q with
      | none =>
        simp only [ho]
        rw [show (mkSnapshot h rest sel) = rest.filterMap _ from rfl] at ih
        rw [ih x]
        by_cases hxq : x = q
        · subst hxq
          by_cases hxr : x ∈ rest
          · rw [if_pos ⟨hxr, hq⟩, if_pos ⟨List.mem_cons_of_mem _ hxr, hq⟩, ho]
          · rw [if_neg (fun hc => hxr hc.1), if_pos ⟨List.mem_cons_self _ _, hq⟩, ho]
            rfl
        · by_cases hxc : x ∈ rest ∧ sel.contains x = true
          · rw [if_pos hxc, if_pos ⟨List.mem_cons_of_mem _ hxc.1, hxc.2⟩]
          · rw [if_neg hxc]
            rw [if_neg (fun hc => hxc ⟨(List.mem_cons.mp hc.1).resolve_left hxq, hc.2⟩)]
      | some pd =>
        simp only [ho]
        rw [assocLookup]
        rw [show (mkSnapshot h rest sel) = rest.filterMap _ from rfl] at ih
        by_cases hxq : q = x
        · rw [if_pos hxq]
          subst hxq
          rw [if_pos ⟨List.mem_cons_self _ _, hq⟩, ho]
          rfl
        · rw [if_neg hxq, ih x]
          have hxq' : ¬ x = q := fun hc => hxq hc.symm
          by_cases hxc : x ∈ rest ∧ sel.contains x = true
          · rw [if_pos hxc, if_pos ⟨List.mem_cons_of_mem _ hxc.1, hxc.2⟩]
          · rw [if_neg hxc]
            rw [if_neg (fun hc => hxc ⟨(List.mem_cons.mp hc.1).resolve_left hxq', hc.2⟩)]
    · rw [if_neg hq]
      rw [show (mkSnapshot h rest sel) = rest.filterMap _ from rfl] at ih
      rw [ih x]
      by_cases hxq : x = q
      · subst hxq
        have hq' : sel.contains x = false := Bool.not_eq_true _ ▸ (by simpa using hq)
        rw [if_neg (fun hc => hq (hc.2)), if_neg (fun hc => hq (hc.2))]
      · by_cases hxc : x ∈ rest ∧ sel.contains x = true
        · rw [if_pos hxc, if_pos ⟨List.mem_cons_of_mem _ hxc.1, hxc.2⟩]
        · rw [if_neg hxc]
          rw [if_neg (fun hc => hxc ⟨(List.mem_cons.mp hc.1).resolve_left hxq, hc.2⟩)]

/-! ## The drag gesture invariant -/

theorem MovedFrom_refl (h0 : Heap) (pts sel : List String)
    (orig : List (String × Point2D)) : MovedFrom h0 h0 pts sel orig := by
  intro x
  refine ⟨fun _ => rfl, fun _ => ?_⟩
  cases hl : assocLookup h0 x with
  | none => exact ⟨0, 0, rfl⟩
  | some pd => exact ⟨pd.x, pd.y, rfl⟩

theorem MovedFrom_step (h0 h' : Heap) (pts sel : List String)
    (orig : List (String × Point2D)) (f : Point2D → Point2D)
    (hm : MovedFrom h0 h' pts sel orig) :
    MovedFrom h0 (moveSelected sel orig f h' pts) pts sel orig := by
  intro x
  constructor
  · intro hnc
    have hbase := (hm x).1 hnc
    by_cases h1 : x ∈ pts
    · by_cases h2 : sel.contains x = true
      · cases ho : assocLookup orig x with
        | some o => exact absurd ⟨h1, h2, by rw [ho]; rfl⟩ hnc
        | none => rw [moveSelected_noorig _ _ _ _ _ _ ho, hbase]
      · rw [moveSelected_notsel _ _ _ _ _ _ (Bool.not_eq_true _ ▸ h2), hbase]
    · rw [moveSelected_notmem _ _ _ _ _ _ h1, hbase]
  · rintro ⟨h1, h2, h3⟩
    obtain ⟨o, ho⟩ := Option.isSome_iff_exists.mp h3
    obtain ⟨a, b, hab⟩ := (hm x).2 ⟨h1, h2, h3⟩
    refine ⟨(f o).x, (f o).y, ?_⟩
    rw [moveSelected_mem _ _ _ _ _ _ _ h1 h2 ho, hab]
    cases assocLookup h0 x <;> rfl

theorem updateDragging_dragState (u : Point2D) (s0 : AppState) (d : Diagram)
    (p0 : Point2D) (de : Option Point2D) (h' : Heap) :
    updateDragging u (dragState s0 d p0 de h') =
      dragState s0 d p0 (some u)
        (moveSelected s0.interactionState.selectedPoints
          (mkSnapshot d.heap d.points s0.interactionState.selectedPoints)
          (fun o => ⟨o.x + (u.x - p0.x), o.y + (u.y - p0.y)⟩) h' d.points) := by
  rfl

theorem foldl_updateDragging (ups : List Point2D) :
    ∀ (s0 : AppState) (d : Diagram) (p0 : Point2D) (de : Option Point2D)
      (h' : Heap),
      MovedFrom d.heap h' d.points s0.interactionState.selectedPoints
        (mkSnapshot d.heap d.points s0.interactionState.selectedPoints) →
      ∃ h'' de',
        ups.foldl (fun s u => updateDragging u s) (dragState s0 d p0 de h') =
          dragState s0 d p0 de' h'' ∧
        MovedFrom d.heap h'' d.points s0.interactionState.selectedPoints
          (mkSnapshot d.heap d.points s0.interactionState.selectedPoints) := by
  induction ups with
  | nil => intro s0 d p0 de h' hm; exact ⟨h', de, rfl, hm⟩
  | cons u rest ih =>
    intro s0 d p0 de h' hm
    rw [List.foldl_cons, updateDragging_dragState]
    exact ih s0 d p0 (some u) _ (MovedFrom_step _ _ _ _ _ _ hm)

theorem startDragging_eq_dragState (p0 : Point2D) (s0 : AppState) (d : Diagram)
    (hd : s0.diagramData = some d) :
    startDragging p0 s0 = dragState s0 d p0 (some p0) d.heap := by
  rw [startDragging, hd, dragState]

theorem endDragging_dragState_revert (cfg : AppConfig) (p : Point2D)
    (s0 : AppState) (d : Diagram) (p0 : Point2D) (de : Option Point2D)
    (h'' : Heap)
    (hm : MovedFrom d.heap h'' d.points s0.interactionState.selectedPoints
      (mkSnapshot d.heap d.points s0.interactionState.selectedPoints))
    (hdx : |p.x - p0.x| ≤ cfg.dragThreshold)
    (hdy : |p.y - p0.y| ≤ cfg.dragThreshold) :
    ∃ h3,
      endDragging cfg p (dragState s0 d p0 de h'') =
        ({ s0 with
            diagramData := some { d with heap := h3 }
            interactionState :=
              { s0.interactionState with
                mode := InteractionMode.NONE
                dragStart := none
                dragEnd := none
                originalPositions :=
                  mkSnapshot d.heap d.points s0.interactionState.selectedPoints } },
          none) ∧
      ∀ x, assocLookup h3 x = assocLookup d.heap x := by
  refine ⟨moveSelected s0.interactionState.selectedPoints
    (mkSnapshot d.heap d.points s0.interactionState.selectedPoints)
    (fun o => o) h'' d.points, ?_, ?_⟩
  · rw [endDragging]
    rw [if_pos (show (dragState s0 d p0 de h'').interactionState.mode =
      InteractionMode.DRAGGING from rfl)]
    simp only [dragState]
    rw [if_neg (not_or.mpr ⟨not_lt.mpr hdx, not_lt.mpr hdy⟩)]
    rfl
  · intro x
    by_cases hc : DragCond d.points s0.interactionState.selectedPoints
      (mkSnapshot d.heap d.points s0.interactionState.selectedPoints) x
    · obtain ⟨h1, h2, h3⟩ := hc
      obtain ⟨o, ho⟩ := Option.isSome_iff_exists.mp h3
      obtain ⟨a, b, hab⟩ := (hm x).2 ⟨h1, h2, h3⟩
      rw [moveSelected_mem _ _ _ _ _ _ _ h1 h2 ho, hab]
      have hsnap := assocLookup_mkSnapshot d.heap
        s0.interactionState.selectedPoints d.points x
      rw [if_pos ⟨h1, h2⟩, ho] at hsnap
      cases hl : assocLookup d.heap x with
      | none => rw [hl] at hsnap; exact absurd hsnap.symm (by simp)
      | some pd =>
        rw [hl] at hsnap
        have hox : o = ⟨pd.x, pd.y⟩ := by simpa using hsnap
        subst hox
        rfl
    · exact ((MovedFrom_step _ _ _ _ _ (fun o => o) hm) x).1 hc

/-! ## Lemmas about the selection rectangle loop -/

theorem selAdd_contains_of (acc : List String) (q x : String)
    (hx : acc.contains x = true) : (selAdd acc q).contains x = true := by
  rw [selAdd]
  by_cases hq : acc.contains q = true
  · rw [if_pos hq]; exact hx
  · rw [if_neg hq]
    rw [List.elem_iff] at hx ⊢
    exact List.mem_append_left _ hx

theorem selAdd_contains_self (acc : List String) (x : String) :
    (selAdd acc x).contains x = true := by
  rw [selAdd]
  by_cases hq : acc.contains x = true
  · rw [if_pos hq]; exact hq
  · rw [if_neg hq]
    rw [List.elem_iff]
    exact List.mem_append_right _ (List.mem_singleton_self _)

theorem addPointsInRect_preserves (h : Heap) (sx sy ex ey : ℚ)
    (pts : List String) :
    ∀ (acc : List String) (x : String), acc.contains x = true →
      (addPointsInRect h sx sy ex ey acc pts).contains x = true := by
  induction pts with
  | nil => intro acc x hx; exact hx
  | cons q rest ih =>
    intro acc x hx
    rw [addPointsInRect]
    cases ho : assocLookup h q with
    | none => simp only [ho]; exact ih _ _ hx
    | some pd =>
      simp only [ho]
      by_cases hb : sx ≤ pd.x ∧ pd.x ≤ ex ∧ sy ≤ pd.y ∧ pd.y ≤ ey
      · rw [if_pos hb]; exact ih _ _ (selAdd_contains_of _ _ _ hx)
      · rw [if_neg hb]; exact ih _ _ hx

theorem addPointsInRect_adds (h : Heap) (sx sy ex ey : ℚ) (pts : List String) :
    ∀ (acc : List String) (x : String) (pd : PointData), x ∈ pts →
      assocLookup h x = some pd →
      sx ≤ pd.x → pd.x ≤ ex → sy ≤ pd.y → pd.y ≤ ey →
      (addPointsInRect h sx sy ex ey acc pts).contains x = true := by
  induction pts with
  | nil => intro acc x pd hx; simp at hx
  | cons q rest ih =>
    intro acc x pd hx hpd hb1 hb2 hb3 hb4
    rw [addPointsInRect]
    by_cases hqx : q = x
    · subst hqx
      simp only [hpd]
      rw [if_pos ⟨hb1, hb2, hb3, hb4⟩]
      exact addPointsInRect_preserves _ _ _ _ _ _ _ _
        (selAdd_contains_self _ _)
    · have hx' : x ∈ rest := (List.mem_cons.mp hx).resolve_left
        (fun hc => hqx hc.symm)
      cases ho : assocLookup h q with
      | none => simp only [ho]; exact ih _ _ _ hx' hpd hb1 hb2 hb3 hb4
      | some pd' =>
        simp only [ho]
        by_cases hb : sx ≤ pd'.x ∧ pd'.x ≤ ex ∧ sy ≤ pd'.y ∧ pd'.y ≤ ey
        · rw [if_pos hb]; exact ih _ _ _ hx' hpd hb1 hb2 hb3 hb4
        · rw [if_neg hb]; exact ih _ _ _ hx' hpd hb1 hb2 hb3 hb4

theorem spliceRemove_natCast {α : Type} (l : List α) (j : ℕ) :
    spliceRemove l (j : ℤ) = l.eraseIdx j := by
  rw [spliceRemove, if_neg (by omega : ¬ (j : ℤ) < 0)]
  norm_num

theorem mkSnapshot_keys (h : Heap) (sel : List String) (pts : List String)
    (hsome : allInHeap h pts = true) :
    (mkSnapshot h pts sel).map Prod.fst = selectedOf pts sel := by
  induction pts with
  | nil => rfl
  | cons q rest ih =>
    rw [allInHeap, List.all_cons, Bool.and_eq_true] at hsome
    have ihr := ih (by rw [allInHeap]; exact hsome.2)
    rw [mkSnapshot, List.filterMap_cons, selectedOf, List.filter_cons]
    rw [show mkSnapshot h rest sel = rest.filterMap _ from rfl] at ihr
    rw [show selectedOf rest sel = rest.filter _ from rfl] at ihr
    by_cases hq : sel.contains q = true
    · obtain ⟨pd, hpd⟩ := Option.isSome_iff_exists.mp hsome.1
      rw [if_pos hq]
      simp only [hpd, hq, if_pos]
      rw [List.map_cons, ihr]
    · rw [if_neg hq]
      simp only [hq]
      rw [ihr]
      simp

/-! ## Claim theorems -/

/-- C1: a drag gesture committed via `endDragging` whose final delta from
`dragStart` stays within the drag threshold on both axes is insignificant:
the commit returns `null`, publishes no position-update event, resets the
mode to `NONE` with cleared anchors, and every point's data (in particular
every selected point's coordinates) is back to its pre-drag value. -/
theorem C1_insignificant_drag_reverts (cfg : AppConfig) (s0 : AppState)
    (d : Diagram) (p0 p : Point2D) (ups : List Point2D) (iri : String)
    (hd : s0.diagramData = some d)
    (hdx : |p.x - p0.x| ≤ cfg.dragThreshold)
    (hdy : |p.y - p0.y| ≤ cfg.dragThreshold) :
    (dragGestureRun cfg p0 ups p s0).2 = none ∧
    (dragGestureRun cfg p0 ups p s0).1.positionUpdateEvent =
      s0.positionUpdateEvent ∧
    (dragGestureRun cfg p0 ups p s0).1.interactionState.mode =
      InteractionMode.NONE ∧
    (dragGestureRun cfg p0 ups p s0).1.interactionState.dragStart = none ∧
    (dragGestureRun cfg p0 ups p s0).1.interactionState.dragEnd = none ∧
    pointAt (dragGestureRun cfg p0 ups p s0).1 iri = pointAt s0 iri := by
  obtain ⟨h'', de', hfold, hm⟩ := foldl_updateDragging ups s0 d p0 (some p0)
    d.heap (MovedFrom_refl _ _ _ _)
  obtain ⟨h3, hend, hlook⟩ := endDragging_dragState_revert cfg p s0 d p0 de' h''
    hm hdx hdy
  have hrun : dragGestureRun cfg p0 ups p s0 =
      endDragging cfg p (dragState s0 d p0 de' h'') := by
    rw [dragGestureRun, startDragging_eq_dragState p0 s0 d hd, hfold]
  rw [hrun, hend]
  refine ⟨rfl, rfl, rfl, rfl, rfl, ?_⟩
  simp only [pointAt, hd]
  exact hlook iri

/-- C1 witness: a concrete gesture over `exD1` (threshold 5, final delta
(1,1) after an excursion to (3,4)) reverts the selected point `A`. -/
theorem C1_witness :
    exS1.diagramData = some exD1 ∧
    |(⟨1, 1⟩ : Point2D).x - (⟨0, 0⟩ : Point2D).x| ≤ exCfg.dragThreshold ∧
    |(⟨1, 1⟩ : Point2D).y - (⟨0, 0⟩ : Point2D).y| ≤ exCfg.dragThreshold ∧
    ((dragGestureRun exCfg ⟨0, 0⟩ [⟨3, 4⟩] ⟨1, 1⟩ exS1).2 = none ∧
     (dragGestureRun exCfg ⟨0, 0⟩ [⟨3, 4⟩] ⟨1, 1⟩ exS1).1.positionUpdateEvent =
       exS1.positionUpdateEvent ∧
     (dragGestureRun exCfg ⟨0, 0⟩ [⟨3, 4⟩] ⟨1, 1⟩ exS1).1.interactionState.mode =
       InteractionMode.NONE ∧
     (dragGestureRun exCfg ⟨0, 0⟩ [⟨3, 4⟩] ⟨1, 1⟩ exS1).1.interactionState.dragStart = none ∧
     (dragGestureRun exCfg ⟨0, 0⟩ [⟨3, 4⟩] ⟨1, 1⟩ exS1).1.interactionState.dragEnd = none ∧
     pointAt (dragGestureRun exCfg ⟨0, 0⟩ [⟨3, 4⟩] ⟨1, 1⟩ exS1).1 ("A") =
       pointAt exS1 ("A")) :=
  ⟨by decide, by norm_num [exCfg], by norm_num [exCfg],
    C1_insignificant_drag_reverts exCfg exS1 exD1 ⟨0, 0⟩ ⟨1, 1⟩ [⟨3, 4⟩] ("A")
      (by decide) (by norm_num [exCfg]) (by norm_num [exCfg])⟩

/-- C10: calling `updateDragging` or `endDragging` when the mode is not
`DRAGGING`, or when `dragStart` is null, is a complete no-op at the public
interface: the state (points, interaction fields, view transform, event
bus) is returned unchanged and `endDragging` returns `null`. -/
theorem C10_guarded_noop (cfg : AppConfig) (p : Point2D) (s : AppState)
    (hguard : s.interactionState.mode ≠ InteractionMode.DRAGGING ∨
      s.interactionState.dragStart = none) :
    updateDragging p s = s ∧ endDragging cfg p s = (s, none) := by
  constructor
  · unfold updateDragging
    split
    · rfl
    · rcases hguard with hm | hds
      · rw [if_neg hm]
      · by_cases hm : s.interactionState.mode = InteractionMode.DRAGGING
        · rw [if_pos hm, hds]
        · rw [if_neg hm]
  · unfold endDragging
    rcases hguard with hm | hds
    · rw [if_neg hm]
    · by_cases hm : s.interactionState.mode = InteractionMode.DRAGGING
      · rw [if_pos hm, hds]
      · rw [if_neg hm]

/-- C10 witness: `exS1` is in mode `NONE`; both calls leave it intact. -/
theorem C10_witness :
    (exS1.interactionState.mode ≠ InteractionMode.DRAGGING ∨
      exS1.interactionState.dragStart = none) ∧
    (updateDragging ⟨3, 3⟩ exS1 = exS1 ∧
      endDragging exCfg ⟨3, 3⟩ exS1 = (exS1, none)) :=
  ⟨Or.inl (by decide), C10_guarded_noop exCfg ⟨3, 3⟩ exS1 (Or.inl (by decide))⟩

/-- C2 as amended: a drag update sets every selected point that has a
snapshot entry to its snapshot plus the delta and re-anchors `dragEnd`, but
performs no glue propagation: every point that is not selected — including
a point glued to a selected point — keeps its data unchanged. -/
theorem C2_update_moves_only_selected (s : AppState) (d : Diagram)
    (st p : Point2D) (iri : String) (o : Point2D)
    (hd : s.diagramData = some d)
    (hmode : s.interactionState.mode = InteractionMode.DRAGGING)
    (hst : s.interactionState.dragStart = some st) :
    ((updateDragging p s).interactionState.dragEnd = some p) ∧
    (iri ∈ d.points → s.interactionState.selectedPoints.contains iri = true →
      assocLookup s.interactionState.originalPositions iri = some o →
      pointAt (updateDragging p s) iri =
        (pointAt s iri).map (fun pd =>
          { pd with x := o.x + (p.x - st.x), y := o.y + (p.y - st.y) })) ∧
    (s.interactionState.selectedPoints.contains iri = false →
      pointAt (updateDragging p s) iri = pointAt s iri) := by
  have hred : updateDragging p s =
      { s with
        diagramData := some
          { d with heap :=
              (moveSelected s.interactionState.selectedPoints
                s.interactionState.originalPositions
                (fun q => ⟨q.x + (p.x - st.x), q.y + (p.y - st.y)⟩)
                d.heap d.points) }
        interactionState := { s.interactionState with dragEnd := some p } } := by
    unfold updateDragging
    split
    · next heq => rw [hd] at heq; exact Option.noConfusion heq
    · next d' heq =>
      rw [hd] at heq
      injection heq with hh
      subst hh
      rw [if_pos hmode, hst]
  refine ⟨by rw [hred], ?_, ?_⟩
  · intro hmem hsel horig
    rw [hred]
    simp only [pointAt, hd]
    rw [moveSelected_mem _ _ _ _ _ _ _ hmem hsel horig]
  · intro hsel
    rw [hred]
    simp only [pointAt, hd]
    rw [moveSelected_notsel _ _ _ _ _ _ (by rw [hsel])]

/-- C2 counterexample: in `exD1` the point `B` is glued to the selected
point `A` and is not itself selected; after a drag update with delta (5,5)
the code moves `A` to (5,5) but leaves `B` at (10,0), not at the
snapshot-plus-delta position (15,5) the claim demands for glued points. -/
theorem C2_counterexample :
    pointAt exS1 ("B") = some ⟨10, 0, 0, ("P"), [("A")]⟩ ∧
    exS1.interactionState.selectedPoints = [("A")] ∧
    coordsAt (updateDragging ⟨5, 5⟩ (startDragging ⟨0, 0⟩ exS1)) ("A") =
      some ⟨5, 5⟩ ∧
    coordsAt (updateDragging ⟨5, 5⟩ (startDragging ⟨0, 0⟩ exS1)) ("B") =
      some ⟨10, 0⟩ ∧
    coordsAt (updateDragging ⟨5, 5⟩ (startDragging ⟨0, 0⟩ exS1)) ("B") ≠
      some ⟨15, 5⟩ := by
  refine ⟨by decide, by decide, ?_, ?_, ?_⟩ <;>
    simp +decide [exS1, exD1, exCfg, initialAppState, initialInteractionState,
      loadDiagramLayout, clearSelection, resetViewTransform,
      togglePointSelection, startDragging, updateDragging, mkSnapshot,
      moveSelected, setXY, assocLookup, coordsAt, pointAt, List.contains,
      List.elem]

/-- C9 counterexample: a reachable state refuting that the snapshot map is
cleared whenever the mode is not `DRAGGING`: after `endDragging` the mode
is back to `NONE` yet `originalPositions` still holds the last snapshot. -/
theorem C9_counterexample :
    (endDragging exCfg ⟨1, 1⟩ (startDragging ⟨0, 0⟩ exS1)).1.interactionState.mode ≠
      InteractionMode.DRAGGING ∧
    (endDragging exCfg ⟨1, 1⟩ (startDragging ⟨0, 0⟩ exS1)).1.interactionState.mode =
      InteractionMode.NONE ∧
    (endDragging exCfg ⟨1, 1⟩ (startDragging ⟨0, 0⟩ exS1)).1.interactionState.originalPositions ≠
      [] := by
  refine ⟨?_, ?_, ?_⟩ <;>
    norm_num +decide [exS1, exD1, exCfg, initialAppState, initialInteractionState,
      loadDiagramLayout, clearSelection, resetViewTransform,
      togglePointSelection, startDragging, endDragging,
      revertDraggedPositions, mkSnapshot, moveSelected, setXY, assocLookup,
      List.contains, List.elem]

/-- C9 as amended: at drag start the snapshot keys are exactly the
selected identifiers present in the flattened point collection, in that
order; but the map is not cleared when dragging ends — `endDragging` leaves
`originalPositions` untouched in every case. -/
theorem C9_snapshot_keys_and_retention (s : AppState) (d : Diagram)
    (p q : Point2D) (cfg : AppConfig)
    (hd : s.diagramData = some d)
    (hsome : allInHeap d.heap d.points = true) :
    ((startDragging p s).interactionState.originalPositions.map Prod.fst =
      selectedOf d.points s.interactionState.selectedPoints) ∧
    ((endDragging cfg q s).1.interactionState.originalPositions =
      s.interactionState.originalPositions) := by
  constructor
  · rw [startDragging_eq_dragState p s d hd]
    exact mkSnapshot_keys d.heap _ d.points hsome
  · unfold endDragging
    by_cases hm : s.interactionState.mode = InteractionMode.DRAGGING
    · rw [if_pos hm]
      cases hst : s.interactionState.dragStart with
      | none => rfl
      | some st =>
        dsimp only
        by_cases hsig : |q.x - st.x| > cfg.dragThreshold ∨
            |q.y - st.y| > cfg.dragThreshold
        · rw [if_pos hsig]
        · rw [if_neg hsig]
          unfold revertDraggedPositions
          cases hd2 : s.diagramData <;> rfl
    · rw [if_neg hm]

/-- C9 witness: the amended statement at a concrete gesture over `exD1`. -/
theorem C9_witness :
    exS1.diagramData = some exD1 ∧
    allInHeap exD1.heap exD1.points = true ∧
    ((startDragging ⟨0, 0⟩ exS1).interactionState.originalPositions.map Prod.fst =
      selectedOf exD1.points exS1.interactionState.selectedPoints ∧
     (endDragging exCfg ⟨1, 1⟩ exS1).1.interactionState.originalPositions =
      exS1.interactionState.originalPositions) :=
  ⟨by decide, by decide,
    C9_snapshot_keys_and_retention exS1 exD1 ⟨0, 0⟩ ⟨1, 1⟩ exCfg
      (by decide) (by decide)⟩

/-- C8 counterexample: a CGMES version change empties the selection but
does not reset the mode: from a reachable `SELECTING` state,
`setCGMESVersion` leaves the mode at `SELECTING`, not `NONE`. -/
theorem C8_counterexample :
    (setCGMESVersion CGMESVersion.V2_4_15
      (startSelecting ⟨0, 0⟩ (initialAppState exCfg))).interactionState.mode ≠
      InteractionMode.NONE ∧
    (setCGMESVersion CGMESVersion.V2_4_15
      (startSelecting ⟨0, 0⟩ (initialAppState exCfg))).interactionState.mode =
      InteractionMode.SELECTING ∧
    (setCGMESVersion CGMESVersion.V2_4_15
      (startSelecting ⟨0, 0⟩
        (initialAppState exCfg))).interactionState.selectedPoints = [] :=
  ⟨by decide, by decide, by decide⟩

/-- C8 as amended: both a CGMES version change and a diagram reload empty
the selection set, but neither resets the interaction mode (or the gesture
anchors): `clearSelection` touches only `selectedPoints`. -/
theorem C8_clears_selection_but_not_mode (s : AppState) (v : CGMESVersion)
    (cfg : AppConfig) (diagramIri : String) (fetch : Except String Diagram)
    (hiri : diagramIri ≠ "") :
    ((setCGMESVersion v s).interactionState.selectedPoints = [] ∧
     (setCGMESVersion v s).interactionState.mode = s.interactionState.mode ∧
     (setCGMESVersion v s).cgmesVersion = v) ∧
    ((loadDiagramLayout cfg diagramIri fetch s).1.interactionState.selectedPoints = [] ∧
     (loadDiagramLayout cfg diagramIri fetch s).1.interactionState.mode =
       s.interactionState.mode) := by
  refine ⟨⟨rfl, rfl, rfl⟩, ?_⟩
  rw [loadDiagramLayout, if_neg hiri]
  cases fetch <;> exact ⟨rfl, rfl⟩

/-- C8 witness: the amended statement from a `SELECTING` state. -/
theorem C8_witness :
    ("http://example.org/diagram1" : String) ≠ "" ∧
    (((setCGMESVersion CGMESVersion.V2_4_15
        (startSelecting ⟨0, 0⟩ exS1)).interactionState.selectedPoints = [] ∧
      (setCGMESVersion CGMESVersion.V2_4_15
        (startSelecting ⟨0, 0⟩ exS1)).interactionState.mode =
        (startSelecting ⟨0, 0⟩ exS1).interactionState.mode ∧
      (setCGMESVersion CGMESVersion.V2_4_15
        (startSelecting ⟨0, 0⟩ exS1)).cgmesVersion = CGMESVersion.V2_4_15) ∧
     ((loadDiagramLayout exCfg ("http://example.org/diagram1") (.ok exD1)
        (startSelecting ⟨0, 0⟩ exS1)).1.interactionState.selectedPoints = [] ∧
      (loadDiagramLayout exCfg ("http://example.org/diagram1") (.ok exD1)
        (startSelecting ⟨0, 0⟩ exS1)).1.interactionState.mode =
        (startSelecting ⟨0, 0⟩ exS1).interactionState.mode)) :=
  ⟨by decide,
    C8_clears_selection_but_not_mode (startSelecting ⟨0, 0⟩ exS1)
      CGMESVersion.V2_4_15 exCfg ("http://example.org/diagram1") (.ok exD1)
      (by decide)⟩

/-- C2 witness: the amended statement at a concrete drag over `exD1`. -/
theorem C2_witness :
    ((startDragging ⟨0, 0⟩ exS1).diagramData = some exD1 ∧
     (startDragging ⟨0, 0⟩ exS1).interactionState.mode =
       InteractionMode.DRAGGING ∧
     (startDragging ⟨0, 0⟩ exS1).interactionState.dragStart = some ⟨0, 0⟩) ∧
    (updateDragging ⟨5, 5⟩ (startDragging ⟨0, 0⟩ exS1)).interactionState.dragEnd =
      some ⟨5, 5⟩ ∧
    pointAt (updateDragging ⟨5, 5⟩ (startDragging ⟨0, 0⟩ exS1)) ("A") =
      some ⟨5, 5, 0, ("O"), [("B")]⟩ ∧
    pointAt (updateDragging ⟨5, 5⟩ (startDragging ⟨0, 0⟩ exS1)) ("B") =
      pointAt (startDragging ⟨0, 0⟩ exS1) ("B") := by
  refine ⟨⟨by decide, by decide, by decide⟩, ?_, ?_, ?_⟩
  · exact (C2_update_moves_only_selected (startDragging ⟨0, 0⟩ exS1) exD1
      ⟨0, 0⟩ ⟨5, 5⟩ ("A") ⟨0, 0⟩ (by decide) (by decide) (by decide)).1
  · have h := (C2_update_moves_only_selected (startDragging ⟨0, 0⟩ exS1) exD1
      ⟨0, 0⟩ ⟨5, 5⟩ ("A") ⟨0, 0⟩ (by decide) (by decide) (by decide)).2.1
      (by decide) (by decide) (by decide)
    refine h.trans ?_
    norm_num +decide [pointAt, startDragging, exS1, exD1, exCfg,
      initialAppState, initialInteractionState, loadDiagramLayout,
      clearSelection, resetViewTransform, togglePointSelection, mkSnapshot,
      assocLookup, List.contains, List.elem]
  · exact (C2_update_moves_only_selected (startDragging ⟨0, 0⟩ exS1) exD1
      ⟨0, 0⟩ ⟨5, 5⟩ ("B") ⟨0, 0⟩ (by decide) (by decide) (by decide)).2.2
      (by decide)

/-- C5: committing a rectangle selection cancels with an unchanged
selection when the rectangle's width or height is at most 3 units;
otherwise the selection is additive: previously selected points stay
selected and every point inside the inclusive bounds is added. -/
theorem C5_completeSelecting_additive (s : AppState) (d : Diagram)
    (ds de : Point2D) (iri : String) (pd : PointData)
    (hd : s.diagramData = some d)
    (hmode : s.interactionState.mode = InteractionMode.SELECTING)
    (hds : s.interactionState.dragStart = some ds)
    (hde : s.interactionState.dragEnd = some de) :
    ((|max ds.x de.x - min ds.x de.x| ≤ 3 ∨ |max ds.y de.y - min ds.y de.y| ≤ 3) →
      (completeSelecting s).interactionState.selectedPoints =
        s.interactionState.selectedPoints ∧
      (completeSelecting s).interactionState.mode = InteractionMode.NONE) ∧
    (¬ (|max ds.x de.x - min ds.x de.x| ≤ 3 ∨ |max ds.y de.y - min ds.y de.y| ≤ 3) →
      (completeSelecting s).interactionState.mode = InteractionMode.NONE ∧
      (s.interactionState.selectedPoints.contains iri = true →
        (completeSelecting s).interactionState.selectedPoints.contains iri = true) ∧
      (iri ∈ d.points → assocLookup d.heap iri = some pd →
        min ds.x de.x ≤ pd.x → pd.x ≤ max ds.x de.x →
        min ds.y de.y ≤ pd.y → pd.y ≤ max ds.y de.y →
        (completeSelecting s).interactionState.selectedPoints.contains iri = true)) := by
  have hred0 : completeSelecting s =
      (if |max ds.x de.x - min ds.x de.x| ≤ 3 ∨ |max ds.y de.y - min ds.y de.y| ≤ 3 then
        { s with interactionState :=
            { s.interactionState with
              mode := InteractionMode.NONE
              dragStart := none
              dragEnd := none } }
      else
        { s with interactionState :=
            { s.interactionState with
              mode := InteractionMode.NONE
              dragStart := none
              dragEnd := none
              selectedPoints :=
                (addPointsInRect d.heap (min ds.x de.x) (min ds.y de.y)
                  (max ds.x de.x) (max ds.y de.y)
                  s.interactionState.selectedPoints d.points) } }) := by
    unfold completeSelecting
    split
    · next heq => rw [hd] at heq; exact Option.noConfusion heq
    · next d' heq =>
      rw [hd] at heq
      injection heq with hh
      subst hh
      rw [if_pos hmode, hds, hde]
  constructor
  · intro hsm
    rw [hred0, if_pos hsm]
    exact ⟨rfl, rfl⟩
  · intro hbig
    rw [hred0, if_neg hbig]
    refine ⟨rfl, ?_, ?_⟩
    · intro hsel
      exact addPointsInRect_preserves _ _ _ _ _ _ _ _ hsel
    · intro hmem hpd h1 h2 h3 h4
      exact addPointsInRect_adds _ _ _ _ _ _ _ _ _ hmem hpd h1 h2 h3 h4

/-- C5 witness: a 2-by-2 rectangle cancels with the selection unchanged; a
20-by-20 rectangle keeps `A` selected and adds `B`. -/
theorem C5_witness :
    ((completeSelecting exSelSmall).interactionState.selectedPoints =
      exSelSmall.interactionState.selectedPoints ∧
     (completeSelecting exSelSmall).interactionState.mode =
       InteractionMode.NONE) ∧
    ((completeSelecting exSelBig).interactionState.mode =
       InteractionMode.NONE ∧
     (completeSelecting exSelBig).interactionState.selectedPoints.contains ("A") =
       true ∧
     (completeSelecting exSelBig).interactionState.selectedPoints.contains ("B") =
       true) := by
  refine ⟨(C5_completeSelecting_additive exSelSmall exD1 ⟨0, 0⟩ ⟨2, 2⟩ ("A")
      ⟨0, 0, 0, ("O"), [("B")]⟩ (by decide) (by decide) (by decide)
      (by decide)).1 (by norm_num), ?_, ?_, ?_⟩
  · exact ((C5_completeSelecting_additive exSelBig exD1 ⟨0, 0⟩ ⟨20, 20⟩ ("B")
      ⟨10, 0, 0, ("P"), [("A")]⟩ (by decide) (by decide) (by decide)
      (by decide)).2 (by norm_num)).1
  · exact ((C5_completeSelecting_additive exSelBig exD1 ⟨0, 0⟩ ⟨20, 20⟩ ("A")
      ⟨0, 0, 0, ("O"), [("B")]⟩ (by decide) (by decide) (by decide)
      (by decide)).2 (by norm_num)).2.1 (by decide)
  · exact ((C5_completeSelecting_additive exSelBig exD1 ⟨0, 0⟩ ⟨20, 20⟩ ("B")
      ⟨10, 0, 0, ("P"), [("A")]⟩ (by decide) (by decide) (by decide)
      (by decide)).2 (by norm_num)).2.2 (by decide) (by decide)
      (by norm_num) (by norm_num) (by norm_num) (by norm_num)

/-- C6: zooming picks the zoom-in factor exactly when the wheel delta is
negative, multiplies the scale by it, and solves the offsets so that the
diagram point under the cursor stays under the cursor. -/
theorem C6_zoom_keeps_cursor_fixed (cfg : AppConfig) (t : ViewTransform)
    (center : Point2D) (delta : ℚ) (p : Point2D)
    (hp : viewportOf t p = center) :
    (zoom cfg center delta t).scale =
      t.scale * (if delta < 0 then cfg.zoomFactor else 1 / cfg.zoomFactor) ∧
    (zoom cfg center delta t).offsetX =
      center.x - (center.x - t.offsetX) *
        (if delta < 0 then cfg.zoomFactor else 1 / cfg.zoomFactor) ∧
    (zoom cfg center delta t).offsetY =
      center.y - (center.y - t.offsetY) *
        (if delta < 0 then cfg.zoomFactor else 1 / cfg.zoomFactor) ∧
    viewportOf (zoom cfg center delta t) p = center := by
  obtain ⟨px, py⟩ := p
  obtain ⟨cx, cy⟩ := center
  obtain ⟨sc, ox, oy⟩ := t
  simp only [viewportOf, zoom, Point2D.mk.injEq] at hp ⊢
  obtain ⟨hx, hy⟩ := hp
  refine ⟨trivial, trivial, trivial, ?_, ?_⟩
  · linear_combination (if delta < 0 then cfg.zoomFactor else 1 / cfg.zoomFactor) * hx
  · linear_combination (if delta < 0 then cfg.zoomFactor else 1 / cfg.zoomFactor) * hy

/-- C6 witness: the spec's example — scale 1, offset (0,0), zoom factor
1.1, negative wheel delta at cursor (100,100) gives scale 1.1 and offset
(-10,-10), and (100,100) stays under the cursor. -/
theorem C6_witness :
    viewportOf ⟨1, 0, 0⟩ ⟨100, 100⟩ = (⟨100, 100⟩ : Point2D) ∧
    ((zoom exCfg ⟨100, 100⟩ (-1) ⟨1, 0, 0⟩).scale = 11 / 10 ∧
     (zoom exCfg ⟨100, 100⟩ (-1) ⟨1, 0, 0⟩).offsetX = -10 ∧
     (zoom exCfg ⟨100, 100⟩ (-1) ⟨1, 0, 0⟩).offsetY = -10 ∧
     viewportOf (zoom exCfg ⟨100, 100⟩ (-1) ⟨1, 0, 0⟩) ⟨100, 100⟩ =
       (⟨100, 100⟩ : Point2D)) := by
  have h := C6_zoom_keeps_cursor_fixed exCfg ⟨1, 0, 0⟩ ⟨100, 100⟩ (-1)
    ⟨100, 100⟩ (by norm_num [viewportOf])
  refine ⟨by norm_num [viewportOf], ?_, ?_, ?_, h.2.2.2⟩
  · rw [h.1]
    norm_num [exCfg]
  · rw [h.2.1]
    norm_num [exCfg]
  · rw [h.2.2.1]
    norm_num [exCfg]

/-! ## Reduction lemmas for the structural operations -/

theorem addNewPointToLine_ok_red (d : Diagram) (objIri : String)
    (pos : Point2D) (idx : ℕ) (newIri : String) (o : DiagramObject)
    (hfind : findObj d.objects objIri = some o) :
    addNewPointToLine d objIri pos idx newIri (.ok ()) =
      ⟨⟨updObj d.objects objIri (splice o.points idx newIri),
        d.points ++ [newIri],
        renumber (d.heap ++ [(newIri, ⟨pos.x, pos.y, idx, objIri, []⟩)])
          (splice o.points idx newIri)⟩,
       true, some ("New point added"), true⟩ := by
  unfold addNewPointToLine
  split
  · next heq => rw [hfind] at heq; exact Option.noConfusion heq
  · next o' heq =>
    rw [hfind] at heq
    injection heq with hh
    subst hh
    rfl

theorem addNewPointToLine_error_red (d : Diagram) (objIri : String)
    (pos : Point2D) (idx : ℕ) (newIri : String) (msg : String)
    (o : DiagramObject)
    (hfind : findObj d.objects objIri = some o) :
    addNewPointToLine d objIri pos idx newIri (.error msg) =
      ⟨⟨updObj (updObj d.objects objIri (splice o.points idx newIri)) objIri
          ((splice o.points idx newIri).filter (fun q => q != newIri)),
        (d.points ++ [newIri]).filter (fun q => q != newIri),
        renumber
          (renumber (d.heap ++ [(newIri, ⟨pos.x, pos.y, idx, objIri, []⟩)])
            (splice o.points idx newIri))
          ((splice o.points idx newIri).filter (fun q => q != newIri))⟩,
       false, some ("Error: " ++ msg), true⟩ := by
  unfold addNewPointToLine
  split
  · next heq => rw [hfind] at heq; exact Option.noConfusion heq
  · next o' heq =>
    rw [hfind] at heq
    injection heq with hh
    subst hh
    rfl

theorem deletePointFromLine_protected_red (d : Diagram) (pointIri : String)
    (pd : PointData) (o : DiagramObject) (remote : Except String Unit)
    (rel : Diagram)
    (hpd : assocLookup d.heap pointIri = some pd)
    (hfind : findObj d.objects pd.parentObject = some o)
    (hguard : jsIndexOfIri o.points pointIri = 0 ∨
      jsIndexOfIri o.points pointIri = (o.points.length : ℤ) - 1) :
    deletePointFromLine d pointIri remote rel =
      ⟨d, false, some ("Cannot delete first or last point of a line or shape"),
       false⟩ := by
  unfold deletePointFromLine
  split
  · next heq => rw [hpd] at heq; exact Option.noConfusion heq
  · next pd' heq =>
    rw [hpd] at heq
    injection heq with hh
    subst hh
    split
    · next heq2 => rw [hfind] at heq2; exact Option.noConfusion heq2
    · next o' heq2 =>
      rw [hfind] at heq2
      injection heq2 with hh2
      subst hh2
      rw [if_pos hguard]

theorem deletePointFromLine_interior_red (d : Diagram) (pointIri : String)
    (pd : PointData) (o : DiagramObject) (rel : Diagram) (j : ℕ)
    (hpd : assocLookup d.heap pointIri = some pd)
    (hfind : findObj d.objects pd.parentObject = some o)
    (hidx : jsIndexOfIri o.points pointIri = (j : ℤ))
    (hj0 : (j : ℤ) ≠ 0) (hjl : (j : ℤ) ≠ (o.points.length : ℤ) - 1) :
    deletePointFromLine d pointIri (.ok ()) rel =
      ⟨⟨updObj d.objects pd.parentObject (o.points.eraseIdx j),
        (if 0 ≤ jsIndexOfIri d.points pointIri then
          d.points.eraseIdx (jsIndexOfIri d.points pointIri).toNat
         else d.points),
        renumber d.heap (o.points.eraseIdx j)⟩,
       true, some ("Point deleted successfully"), true⟩ := by
  unfold deletePointFromLine
  split
  · next heq => rw [hpd] at heq; exact Option.noConfusion heq
  · next pd' heq =>
    rw [hpd] at heq
    injection heq with hh
    subst hh
    split
    · next heq2 => rw [hfind] at heq2; exact Option.noConfusion heq2
    · next o' heq2 =>
      rw [hfind] at heq2
      injection heq2 with hh2
      subst hh2
      rw [if_neg (not_or.mpr ⟨by rw [hidx]; exact hj0, by rw [hidx]; exact hjl⟩)]
      rw [hidx, spliceRemove_natCast]

/-- C3: after an insert the object's ordered list is the splice of the new
iri at the requested index, the new point is appended to the flattened
collection, and sequence numbers run `0..n-1` in list order; after an
interior delete the remainder is again numbered `0..n-1`. -/
theorem C3_sequence_numbers_contiguous (d : Diagram) (objIri : String)
    (pos : Point2D) (idx : ℕ) (newIri : String) (o : DiagramObject)
    (d2 : Diagram) (pointIri : String) (pd2 : PointData) (o2 : DiagramObject)
    (j : ℕ) (rel : Diagram) :
    (findObj d.objects objIri = some o → o.points.Nodup → newIri ∉ o.points →
      allInHeap d.heap o.points = true →
      objPointsOf (addNewPointToLine d objIri pos idx newIri (.ok ())).diagram
        objIri = some (splice o.points idx newIri) ∧
      seqOk (addNewPointToLine d objIri pos idx newIri (.ok ())).diagram.heap
        (splice o.points idx newIri) = true ∧
      (addNewPointToLine d objIri pos idx newIri (.ok ())).diagram.points =
        d.points ++ [newIri]) ∧
    (assocLookup d2.heap pointIri = some pd2 →
      findObj d2.objects pd2.parentObject = some o2 →
      jsIndexOfIri o2.points pointIri = (j : ℤ) → (j : ℤ) ≠ 0 →
      (j : ℤ) ≠ (o2.points.length : ℤ) - 1 →
      o2.points.Nodup → allInHeap d2.heap o2.points = true →
      objPointsOf (deletePointFromLine d2 pointIri (.ok ()) rel).diagram
        pd2.parentObject = some (o2.points.eraseIdx j) ∧
      seqOk (deletePointFromLine d2 pointIri (.ok ()) rel).diagram.heap
        (o2.points.eraseIdx j) = true) := by
  constructor
  · intro hfind hnd hfresh hsome
    rw [addNewPointToLine_ok_red d objIri pos idx newIri o hfind]
    refine ⟨?_, ?_, rfl⟩
    · rw [objPointsOf, findObj_updObj, hfind]
      rfl
    · refine seqOk_renumber _ _ (nodup_splice _ _ _ hnd hfresh) ?_
      intro p hp
      rw [assocLookup_append]
      rcases (mem_splice_iff o.points idx newIri p).mp hp with hpn | hpo
      · subst hpn
        cases hl : assocLookup d.heap p with
        | some v => rfl
        | none =>
          rw [assocLookup, if_pos rfl]
          rfl
      · rw [allInHeap, List.all_eq_true] at hsome
        obtain ⟨v, hv⟩ := Option.isSome_iff_exists.mp (hsome p hpo)
        rw [hv]
        rfl
  · intro hpd hfind hidx hj0 hjl hnd hsome
    rw [deletePointFromLine_interior_red d2 pointIri pd2 o2 rel j hpd hfind
      hidx hj0 hjl]
    refine ⟨?_, ?_⟩
    · rw [objPointsOf, findObj_updObj, hfind]
      rfl
    · refine seqOk_renumber _ _
        ((o2.points.eraseIdx_sublist j).nodup hnd) ?_
      intro p hp
      rw [allInHeap, List.all_eq_true] at hsome
      exact hsome p ((o2.points.eraseIdx_sublist j).subset hp)

/-- C3 witness: the spec example — inserting (5,0) at index 1 into
`O = [P0, P1, P2]` and deleting the interior `P1`. -/
theorem C3_witness :
    (objPointsOf (addNewPointToLine exD3 ("O") ⟨5, 0⟩ 1 ("Pnew")
        (.ok ())).diagram ("O") =
      some (splice [("P0"), ("P1"), ("P2")] 1 ("Pnew")) ∧
     seqOk (addNewPointToLine exD3 ("O") ⟨5, 0⟩ 1 ("Pnew") (.ok ())).diagram.heap
       (splice [("P0"), ("P1"), ("P2")] 1 ("Pnew")) = true ∧
     (addNewPointToLine exD3 ("O") ⟨5, 0⟩ 1 ("Pnew") (.ok ())).diagram.points =
       exD3.points ++ [("Pnew")]) ∧
    (objPointsOf (deletePointFromLine exD3 ("P1") (.ok ()) exD3).diagram ("O") =
      some ([("P0"), ("P1"), ("P2")].eraseIdx 1) ∧
     seqOk (deletePointFromLine exD3 ("P1") (.ok ()) exD3).diagram.heap
       ([("P0"), ("P1"), ("P2")].eraseIdx 1) = true) :=
  ⟨(C3_sequence_numbers_contiguous exD3 ("O") ⟨5, 0⟩ 1 ("Pnew")
      ⟨("O"), [("P0"), ("P1"), ("P2")]⟩ exD3 ("P1") ⟨10, 0, 1, ("O"), []⟩
      ⟨("O"), [("P0"), ("P1"), ("P2")]⟩ 1 exD3).1
      (by decide) (by decide) (by decide) (by decide),
   (C3_sequence_numbers_contiguous exD3 ("O") ⟨5, 0⟩ 1 ("Pnew")
      ⟨("O"), [("P0"), ("P1"), ("P2")]⟩ exD3 ("P1") ⟨10, 0, 1, ("O"), []⟩
      ⟨("O"), [("P0"), ("P1"), ("P2")]⟩ 1 exD3).2
      (by decide) (by decide) (by decide) (by decide) (by decide) (by decide)
      (by decide)⟩

/-- C4: deleting the first or the last point of an object always fails with
the structural-error status and leaves the diagram untouched with no remote
call, for any remote outcome; deleting an interior point always succeeds
locally: the point is removed from the object list (at its index) and from
the flattened collection, the remainder is renumbered, and the success
status is reported. -/
theorem C4_first_last_protected (d : Diagram) (pointIri : String)
    (pd : PointData) (o : DiagramObject) (remote : Except String Unit)
    (rel : Diagram) (j i0 : ℕ)
    (hpd : assocLookup d.heap pointIri = some pd)
    (hfind : findObj d.objects pd.parentObject = some o) :
    ((jsIndexOfIri o.points pointIri = 0 ∨
      jsIndexOfIri o.points pointIri = (o.points.length : ℤ) - 1) →
      deletePointFromLine d pointIri remote rel =
        ⟨d, false,
         some ("Cannot delete first or last point of a line or shape"),
         false⟩) ∧
    (jsIndexOfIri o.points pointIri = (j : ℤ) → (j : ℤ) ≠ 0 →
      (j : ℤ) ≠ (o.points.length : ℤ) - 1 →
      jsIndexOfIri d.points pointIri = (i0 : ℤ) →
      o.points.Nodup → allInHeap d.heap o.points = true →
      (deletePointFromLine d pointIri (.ok ()) rel).ok = true ∧
      (deletePointFromLine d pointIri (.ok ()) rel).remoteCalled = true ∧
      (deletePointFromLine d pointIri (.ok ()) rel).status =
        some ("Point deleted successfully") ∧
      objPointsOf (deletePointFromLine d pointIri (.ok ()) rel).diagram
        pd.parentObject = some (o.points.eraseIdx j) ∧
      (deletePointFromLine d pointIri (.ok ()) rel).diagram.points =
        d.points.eraseIdx i0 ∧
      seqOk (deletePointFromLine d pointIri (.ok ()) rel).diagram.heap
        (o.points.eraseIdx j) = true) := by
  constructor
  · intro hguard
    exact deletePointFromLine_protected_red d pointIri pd o remote rel hpd
      hfind hguard
  · intro hidx hj0 hjl hflat hnd hsome
    rw [deletePointFromLine_interior_red d pointIri pd o rel j hpd hfind
      hidx hj0 hjl]
    refine ⟨rfl, rfl, rfl, ?_, ?_, ?_⟩
    · rw [objPointsOf, findObj_updObj, hfind]
      rfl
    · rw [hflat, if_pos (by exact_mod_cast Nat.zero_le i0), Int.toNat_natCast]
    · refine seqOk_renumber _ _ ((o.points.eraseIdx_sublist j).nodup hnd) ?_
      intro p hp
      rw [allInHeap, List.all_eq_true] at hsome
      exact hsome p ((o.points.eraseIdx_sublist j).subset hp)

/-- C4 witness: deleting `P0` or `P2` of the three-point line fails with
the structural error and no mutation; deleting `P1` succeeds. -/
theorem C4_witness :
    deletePointFromLine exD3 ("P0") (.ok ()) exD3 =
      ⟨exD3, false,
       some ("Cannot delete first or last point of a line or shape"),
       false⟩ ∧
    deletePointFromLine exD3 ("P2") (.error ("boom")) exD3 =
      ⟨exD3, false,
       some ("Cannot delete first or last point of a line or shape"),
       false⟩ ∧
    ((deletePointFromLine exD3 ("P1") (.ok ()) exD3).ok = true ∧
     (deletePointFromLine exD3 ("P1") (.ok ()) exD3).remoteCalled = true ∧
     (deletePointFromLine exD3 ("P1") (.ok ()) exD3).status =
       some ("Point deleted successfully") ∧
     objPointsOf (deletePointFromLine exD3 ("P1") (.ok ()) exD3).diagram ("O") =
       some ([("P0"), ("P1"), ("P2")].eraseIdx 1) ∧
     (deletePointFromLine exD3 ("P1") (.ok ()) exD3).diagram.points =
       exD3.points.eraseIdx 1 ∧
     seqOk (deletePointFromLine exD3 ("P1") (.ok ()) exD3).diagram.heap
       ([("P0"), ("P1"), ("P2")].eraseIdx 1) = true) :=
  ⟨(C4_first_last_protected exD3 ("P0") ⟨0, 0, 0, ("O"), []⟩
      ⟨("O"), [("P0"), ("P1"), ("P2")]⟩ (.ok ()) exD3 0 0
      (by decide) (by decide)).1 (by decide),
   (C4_first_last_protected exD3 ("P2") ⟨10, 10, 2, ("O"), []⟩
      ⟨("O"), [("P0"), ("P1"), ("P2")]⟩ (.error ("boom")) exD3 0 0
      (by decide) (by decide)).1 (by decide),
   (C4_first_last_protected exD3 ("P1") ⟨10, 0, 1, ("O"), []⟩
      ⟨("O"), [("P0"), ("P1"), ("P2")]⟩ (.ok ()) exD3 1 1
      (by decide) (by decide)).2 (by decide) (by decide) (by decide)
      (by decide) (by decide) (by decide)⟩

/-- C7: when the remote persistence call of `addNewPointToLine` fails, the
local insert is rolled back: the object list, the flattened collection and
every reachable point's data (coordinates and sequence numbers) are exactly
as before the attempt, an error status is reported, and the operation
returns normally. -/
theorem C7_insert_rollback (d : Diagram) (objIri : String) (pos : Point2D)
    (idx : ℕ) (newIri : String) (msg : String) (o : DiagramObject)
    (hfind : findObj d.objects objIri = some o)
    (hnd : o.points.Nodup)
    (hseq : seqOk d.heap o.points = true)
    (huniq : uniqueOwner d.objects objIri o = true)
    (hfobj : allFresh d.objects newIri = true)
    (hfflat : newIri ∉ d.points) :
    DiagramEquiv
      (addNewPointToLine d objIri pos idx newIri (.error msg)).diagram d ∧
    (addNewPointToLine d objIri pos idx newIri (.error msg)).ok = false ∧
    (addNewPointToLine d objIri pos idx newIri (.error msg)).status =
      some ("Error: " ++ msg) ∧
    (addNewPointToLine d objIri pos idx newIri (.error msg)).remoteCalled =
      true := by
  have homem : o ∈ d.objects := List.mem_of_find?_eq_some hfind
  rw [allFresh, List.all_eq_true] at hfobj
  have hnotin : ∀ ob ∈ d.objects, newIri ∉ ob.points := by
    intro ob hob hc
    have hcont : ob.points.contains newIri = false := by
      have hb := hfobj ob hob
      cases hcc : ob.points.contains newIri
      · rfl
      · rw [hcc] at hb; exact absurd hb (by decide)
    have : ob.points.contains newIri = true := List.elem_iff.mpr hc
    rw [hcont] at this
    exact Bool.false_ne_true this
  have hfo : newIri ∉ o.points := hnotin o homem
  have huniq' : ∀ ob ∈ d.objects, ob.iri = objIri → ob = o := by
    rw [uniqueOwner, List.all_eq_true] at huniq
    intro ob hob hiri
    exact of_decide_eq_true (huniq ob hob) hiri
  rw [addNewPointToLine_error_red d objIri pos idx newIri msg o hfind]
  have hrb : (splice o.points idx newIri).filter (fun q => q != newIri) =
      o.points := filter_splice_eq_self _ _ _ hfo
  rw [hrb]
  have hobjs : updObj (updObj d.objects objIri (splice o.points idx newIri))
      objIri o.points = d.objects := by
    rw [updObj_updObj]
    exact updObj_eq_self _ _ _ huniq'
  have hpts : (d.points ++ [newIri]).filter (fun q => q != newIri) =
      d.points := by
    rw [List.filter_append]
    have h2 : [newIri].filter (fun q => q != newIri) = [] := by simp
    rw [h2, List.append_nil]
    refine List.filter_eq_self.mpr ?_
    intro a ha
    exact bne_iff_ne.mpr (fun hc => hfflat (hc ▸ ha))
  have happ : ∀ x, x ≠ newIri →
      assocLookup (d.heap ++ [(newIri, ⟨pos.x, pos.y, idx, objIri, []⟩)]) x =
        assocLookup d.heap x := by
    intro x hxne
    rw [assocLookup_append]
    cases hl : assocLookup d.heap x with
    | some v => rfl
    | none =>
      show assocLookup [(newIri, _)] x = none
      rw [assocLookup, if_neg (fun hc : newIri = x => hxne hc.symm)]
      rfl
  have hlook : ∀ x, x ≠ newIri →
      assocLookup (renumber (renumber
          (d.heap ++ [(newIri, ⟨pos.x, pos.y, idx, objIri, []⟩)])
          (splice o.points idx newIri)) o.points) x =
        assocLookup d.heap x := by
    intro x hxne
    by_cases hmem : x ∈ o.points
    · obtain ⟨⟨k, hk⟩, hget⟩ := List.mem_iff_get.mp hmem
      have hnd2 : (splice o.points idx newIri).Nodup :=
        nodup_splice _ _ _ hnd hfo
      have hmem2 : x ∈ splice o.points idx newIri :=
        (mem_splice_iff _ _ _ _).mpr (Or.inr hmem)
      obtain ⟨⟨k2, hk2⟩, hget2⟩ := List.mem_iff_get.mp hmem2
      rw [renumber, assocLookup_renumberFrom_mem o.points _ 0 x k hk hnd hget,
        renumber,
        assocLookup_renumberFrom_mem (splice o.points idx newIri) _ 0 x k2 hk2
          hnd2 hget2,
        happ x hxne]
      obtain ⟨pd0, hpd0, hseq0⟩ := seqOkFrom_spec o.points d.heap 0 hseq k hk
      rw [hget] at hpd0
      rw [hpd0]
      obtain ⟨px0, py0, ps0, pp0, pg0⟩ := pd0
      simp only [Option.map]
      simp only at hseq0
      rw [← hseq0]
    · have hm2 : x ∉ splice o.points idx newIri := by
        intro hc
        rcases (mem_splice_iff _ _ _ _).mp hc with h | h
        · exact hxne h
        · exact hmem h
      rw [renumber, assocLookup_renumberFrom_notmem _ _ _ _ hmem, renumber,
        assocLookup_renumberFrom_notmem _ _ _ _ hm2]
      exact happ x hxne
  refine ⟨⟨hobjs, hpts, ?_, ?_⟩, rfl, rfl, rfl⟩
  · intro iri hiri
    rw [hpts] at hiri
    exact hlook iri (fun hc => hfflat (hc ▸ hiri))
  · intro ob hob iri hiri
    rw [hobjs] at hob
    exact hlook iri (fun hc => hnotin ob hob (hc ▸ hiri))

/-- C7 witness: a failing insert into the three-point line rolls back to a
diagram observationally equal to the original. -/
theorem C7_witness :
    findObj exD3.objects ("O") = some ⟨("O"), [("P0"), ("P1"), ("P2")]⟩ ∧
    seqOk exD3.heap [("P0"), ("P1"), ("P2")] = true ∧
    (DiagramEquiv
      (addNewPointToLine exD3 ("O") ⟨5, 0⟩ 1 ("Pnew")
        (.error ("boom"))).diagram exD3 ∧
     (addNewPointToLine exD3 ("O") ⟨5, 0⟩ 1 ("Pnew") (.error ("boom"))).ok =
       false ∧
     (addNewPointToLine exD3 ("O") ⟨5, 0⟩ 1 ("Pnew") (.error ("boom"))).status =
       some ("Error: " ++ "boom") ∧
     (addNewPointToLine exD3 ("O") ⟨5, 0⟩ 1 ("Pnew")
       (.error ("boom"))).remoteCalled = true) :=
  ⟨by decide, by decide,
   C7_insert_rollback exD3 ("O") ⟨5, 0⟩ 1 ("Pnew") ("boom")
     ⟨("O"), [("P0"), ("P1"), ("P2")]⟩ (by decide) (by decide) (by decide)
     (by decide) (by decide) (by decide)⟩
